import Mathlib

/-! go-dropbox: the chained-cause error model and the folder operations

Shallow embedding of `service/errors.go` (package `goerror`) and of
`dropbox_folder.go` (package `dropbox`).

Go pointers to `ErrorData` are addresses into an explicit heap; the nil pointer
is `none`. A Go `error` interface value is `Option GoError`, the nil interface
being `none`; a non-nil interface holds either a value of a type declared
elsewhere or a `*ErrorData`, which implements `error` itself. A nil dereference
(a Go panic) is the fault `nilDereference`; a loop or a recursion that exhausts
its fuel reports `outOfFuel`.
-/

set_option linter.dupNamespace false

namespace goerror

/-- Heap address of an allocated `ErrorData`. -/
abbrev Addr := Nat

/-- A non-nil Go `error` interface value. `foreign msg` is a value of a type
declared outside this package whose `Error()` returns `msg`. `errorData p` is a
`*ErrorData` stored in the interface (`p = none` is the typed nil pointer): its
`Error()` is the method of this package, run on the heap. -/
inductive GoError where
  | foreign (msg : String)
  | errorData (p : Option Addr)
deriving DecidableEq, Repr

/-- Ways in which an execution fails to return a value. -/
inductive Fault where
  | nilDereference
  | danglingAddress
  | outOfFuel
deriving DecidableEq, Repr

/-- The struct `ErrorData`: an embedded `*ErrorData` and an embedded `error`. -/
structure ErrorData where
  ErrorData : Option Addr
  error : Option GoError
deriving DecidableEq, Repr

/-- The heap: the cell at index `a` holds the struct allocated at address `a`. -/
abbrev Heap := List ErrorData

/-- Dereference of a `*ErrorData`. -/
def load (h : Heap) (p : Option Addr) : Except Fault ErrorData :=
  match p with
  | none => .error .nilDereference
  | some a =>
    match h[a]? with
    | none => .error .danglingAddress
    | some n => .ok n

/-- The method call `err.Error()` on an `error` interface value. On the nil
interface it panics. On a `*ErrorData` it is `(e *ErrorData) Error()`, that is
`e.error.Error()` after the dereference of `e`; each such nested call spends one
unit of fuel. -/
def callError (h : Heap) : Nat → Option GoError → Except Fault String
  | _, none => .error .nilDereference
  | _, some (.foreign msg) => .ok msg
  | 0, some (.errorData p) => do
    let _ ← load h p
    .error .outOfFuel
  | fuel + 1, some (.errorData p) => do
    let n ← load h p
    callError h fuel n.error

/-- The call `fmt.Sprintf("'%s'", s)`. -/
def sprintfQuoted (s : String) : String :=
  "'" ++ s ++ "'"

/-- The call `fmt.Sprintf(", caused by '%s'", s)`. -/
def sprintfCausedBy (s : String) : String :=
  ", caused by '" ++ s ++ "'"

/-- `NewError(err)`: allocates `&ErrorData{error: err}` and returns its address. -/
def NewError (h : Heap) (err : Option GoError) : Heap × Option Addr :=
  (h ++ [{ ErrorData := none, error := err }], some h.length)

/-- `(e *ErrorData) Add(newErr)`: allocates `prevErr` as a copy of `*e`, then
overwrites the two fields of `*e` in place. -/
def Add (h : Heap) (e : Option Addr) (newErr : Option GoError) : Except Fault Heap :=
  match e with
  | none => .error .nilDereference
  | some a =>
    match h[a]? with
    | none => .error .danglingAddress
    | some n =>
      let prevErr : Addr := h.length
      let h1 := h ++ [{ ErrorData := n.ErrorData, error := n.error }]
      .ok (h1.set a { ErrorData := some prevErr, error := newErr })

/-- `(e *ErrorData) Error()`, with a bound `cf` on the depth of the nested
`Error()` calls. -/
def ErrorFuel (cf : Nat) (h : Heap) (e : Option Addr) : Except Fault String := do
  let n ← load h e
  callError h cf n.error

/-- `(e *ErrorData) Error()`. Nested `Error()` calls that return go through
distinct cells, so they are fewer than the heap has cells. -/
def Error (h : Heap) (e : Option Addr) : Except Fault String :=
  ErrorFuel h.length h e

/-- The `for nextErr != nil` loop of `Cause`. Each iteration reads
`e.ErrorData.error` (through the receiver `e`, not through `nextErr`) and then
advances `nextErr`. One unit of loop fuel is spent per iteration; `cf` bounds
the nested `Error()` calls. -/
def Cause.loop (h : Heap) (e : Option Addr) (cf : Nat) :
    Nat → Option Addr → String → Except Fault String
  | _, none, str => .ok str
  | 0, some _, _ => .error .outOfFuel
  | fuel + 1, some nx, str => do
    let en ← load h e
    let inner ← load h en.ErrorData
    let m ← callError h cf inner.error
    let nn ← load h (some nx)
    Cause.loop h e cf fuel nn.ErrorData (str ++ sprintfCausedBy m)

/-- `(e *ErrorData) Cause()` with a bound `lf` on the number of loop iterations
and a bound `cf` on the depth of the nested `Error()` calls. -/
def CauseFuel (lf cf : Nat) (h : Heap) (e : Option Addr) : Except Fault String := do
  let n ← load h e
  let m ← callError h cf n.error
  Cause.loop h e cf lf n.ErrorData (sprintfQuoted m)

/-- `(e *ErrorData) Cause()`. A walk over distinct cells takes fewer iterations
than the heap has cells. -/
def Cause (h : Heap) (e : Option Addr) : Except Fault String :=
  CauseFuel h.length h.length h e

/-- The loop of the traversal the specification describes for `Trace()`: each
iteration reports the node held by the loop variable. -/
def Trace.loop (h : Heap) (cf : Nat) : Nat → Option Addr → String → Except Fault String
  | _, none, str => .ok str
  | 0, some _, _ => .error .outOfFuel
  | fuel + 1, some nx, str => do
    let nn ← load h (some nx)
    let m ← callError h cf nn.error
    Trace.loop h cf fuel nn.ErrorData (str ++ sprintfCausedBy m)

/-- The specification's `Trace()`: the message of `current`, then every
ancestor's message in newest-to-oldest order. -/
def TraceFuel (lf cf : Nat) (h : Heap) (e : Option Addr) : Except Fault String := do
  let n ← load h e
  let m ← callError h cf n.error
  Trace.loop h cf lf n.ErrorData (sprintfQuoted m)

/-- The specification's `Trace()`, bounded like `Cause`. -/
def Trace (h : Heap) (e : Option Addr) : Except Fault String :=
  TraceFuel h.length h.length h e

/-- The sequence of `error` fields met from `p` along the `ErrorData` links,
head first. -/
def causes (h : Heap) : Nat → Option Addr → Except Fault (List (Option GoError))
  | _, none => .ok []
  | 0, some _ => .error .outOfFuel
  | fuel + 1, some a => do
    let n ← load h (some a)
    let rest ← causes h fuel n.ErrorData
    .ok (n.error :: rest)

/-- Number of nodes of the chain that starts at `p`. -/
def depth (h : Heap) (fuel : Nat) (p : Option Addr) : Except Fault Nat := do
  let cs ← causes h fuel p
  .ok cs.length

/-- Successive `e.Add(x)` calls, one per element, in order. -/
def addAll (h : Heap) (e : Option Addr) : List (Option GoError) → Except Fault Heap
  | [] => .ok h
  | x :: xs => do
    let h1 ← Add h e x
    addAll h1 e xs

/-- `e := NewError(e1)` followed by `e.Add(x)` for each `x` of `rest`. -/
def build (h0 : Heap) (e1 : Option GoError) (rest : List (Option GoError)) :
    Except Fault (Heap × Option Addr) := do
  let r := NewError h0 e1
  let h ← addAll r.1 r.2 rest
  .ok (h, r.2)

/-- The segments of the newest-to-oldest narrative of the messages `ms`
(newest first). -/
def traceSegments : List String → List String
  | [] => []
  | m :: rest => sprintfQuoted m :: rest.map sprintfCausedBy

/-- The newest-to-oldest narrative of the messages `ms` (newest first). -/
def renderedTrace (ms : List String) : String :=
  String.join (traceSegments ms)

/-- The heap left by `e.Add(x)` when `e` points at a cell holding `n`. -/
def addHeap (h : Heap) (a : Addr) (n : ErrorData) (x : Option GoError) : Heap :=
  (h ++ [(ErrorData.mk n.ErrorData n.error)]).set a (ErrorData.mk (some h.length) x)

end goerror

namespace dropbox

open goerror

/-- A Go byte slice, as the list of its bytes. -/
abbrev Bytes := List (Fin 256)

/-- The header map `manager.Headers`, as an association list. -/
abbrev Headers := List (String × List String)

/-- A `time.Time` value, as nanoseconds since the epoch. -/
abbrev Time := Int

/-- The struct `listFolderRequest`. -/
structure listFolderRequest where
  Path : String
  Recursive : Bool
  IncludeMediaInfo : Bool
  IncludeDeleted : Bool
  IncludeHasExplicitSharedMembers : Bool
  IncludeMountedFolders : Bool
deriving DecidableEq, Repr

/-- The anonymous struct of a property-group field. -/
structure propertyField where
  Name : String
  Value : String
deriving DecidableEq, Repr

/-- The anonymous struct of a property group. -/
structure propertyGroup where
  TemplateID : String
  Fields : List propertyField
deriving DecidableEq, Repr

/-- The anonymous struct `SharingInfo` of a list entry. -/
structure entrySharingInfo where
  ReadOnly : Bool
  ParentSharedFolderID : String
  ModifiedBy : String
deriving DecidableEq, Repr

/-- The anonymous struct of one element of `Entries`. -/
structure listFolderEntry where
  Tag : String
  Name : String
  ID : String
  ClientModified : Time
  ServerModified : Time
  Rev : String
  Size : Int
  PathLower : String
  PathDisplay : String
  SharingInfo : entrySharingInfo
  PropertyGroups : List propertyGroup
  HasExplicitSharedMembers : Bool
  ContentHash : String
deriving DecidableEq, Repr

/-- The struct `listFolderResponse`. -/
structure listFolderResponse where
  Entries : List listFolderEntry
  Cursor : String
  HasMore : Bool
deriving DecidableEq, Repr

/-- The struct `createFolderRequest`. -/
structure createFolderRequest where
  Path : String
  AutoRename : Bool
deriving DecidableEq, Repr

/-- The anonymous struct `SharingInfo` of the created folder's metadata. -/
structure metadataSharingInfo where
  ReadOnly : Bool
  ParentSharedFolderID : String
  TraverseOnly : Bool
  NoAccess : Bool
deriving DecidableEq, Repr

/-- The anonymous struct `Metadata`. -/
structure folderMetadata where
  Name : String
  ID : String
  PathLower : String
  PathDisplay : String
  SharingInfo : metadataSharingInfo
  PropertyGroups : List propertyGroup
deriving DecidableEq, Repr

/-- The struct `createFolderResponse`. -/
structure createFolderResponse where
  Metadata : folderMetadata
deriving DecidableEq, Repr

/-- Modelled from the spec: the configuration collaborator's authorization
scheme and token (`config.Authorization`), declared outside the sources. -/
structure AuthorizationConfig where
  Access : String
  Token : String

/-- Modelled from the spec: the configuration collaborator's base host
(`config.Hosts`), declared outside the sources. -/
structure HostsConfig where
  Api : String

/-- Modelled from the spec: the configuration collaborator `DropboxConfig`,
declared outside the sources; only the fields the folder operations read. -/
structure DropboxConfig where
  Authorization : AuthorizationConfig
  Hosts : HostsConfig

/-- The transport collaborator `manager.IGateway`: `Request(method, host, route,
headers, body)` answers with a status code, response bytes (nil is `none`) and
a transport error (nil is `none`). -/
structure IGateway where
  Request : String → String → String → Headers → Bytes → Int × Option Bytes × Option GoError

/-- The calls into `encoding/json`: `json.Marshal` on the two request structs and
`json.Unmarshal` into the two response structs. -/
structure Json where
  MarshalList : listFolderRequest → Except GoError Bytes
  MarshalCreate : createFolderRequest → Except GoError Bytes
  UnmarshalList : Bytes → Except GoError listFolderResponse
  UnmarshalCreate : Bytes → Except GoError createFolderResponse

/-- The package-level logger `log`. `ToErrorData field message` is
`log[.WithField("response", field)].Error(message).ToErrorData(newErr)`, which
receives the pointer `newErr` and may write to the heap; `ToError field message`
is `log[.WithField("response", field)].Error(message).ToError(&err)` and gives
the value stored in `err`. -/
structure Logger where
  ToErrorData : Option (Option Bytes) → String → Heap → Option Addr → Heap
  ToError : Option (Option Bytes) → String → Option GoError

/-- The struct `Folder`, with the package-level collaborators it calls. -/
structure Folder where
  client : IGateway
  config : DropboxConfig
  json : Json
  log : Logger

/-- Modelled from the spec: `errors.New` of the imported errors package is not
among the sources; it is the specification's Create, a fresh chain whose
current is the given cause and whose previous is absent, as `NewError` builds. -/
def errorsNew (h : Heap) (err : Option GoError) : Heap × Option Addr :=
  NewError h err

/-- The constant `http.StatusOK`. -/
def StatusOK : Int := 200

/-- The header map built by `List` and `Create`. -/
def requestHeaders (f : Folder) : Headers :=
  [("Authorization", [f.config.Authorization.Access ++ " " ++ f.config.Authorization.Token]),
   ("Content-Type", ["application/json"])]

/-- The call `Errorf("response status %d instead of %d", status, http.StatusOK)`. -/
def statusMessage (status : Int) : String :=
  "response status " ++ toString status ++ " instead of " ++ toString StatusOK

/-- The `if ... else if ... else` chain of `Folder.List` over the transport's
answer `(status, response, err)`. -/
def Folder.List.outcome (f : Folder) (h : Heap) (t : Int × Option Bytes × Option GoError) :
    Heap × Option listFolderResponse × Option Addr :=
  match t with
  | (status, response, err) =>
    if err ≠ none then
      let newErr := errorsNew h err
      let h1 := f.log.ToErrorData (some response) "error listing Folder" newErr.1 newErr.2
      (h1, none, newErr.2)
    else if status ≠ StatusOK then
      let err1 := f.log.ToError (some response) (statusMessage status)
      let r := errorsNew h err1
      (r.1, none, r.2)
    else
      match response with
      | none =>
        let err1 := f.log.ToError none "error listing Folder"
        let r := errorsNew h err1
        (r.1, none, r.2)
      | some bytes =>
        match f.json.UnmarshalList bytes with
        | .error err2 =>
          let newErr := errorsNew h (some err2)
          let h1 := f.log.ToErrorData none "error converting Dropbox response data"
            newErr.1 newErr.2
          (h1, none, newErr.2)
        | .ok dropboxResponse => (h, some dropboxResponse, none)

/-- `(f *Folder) List(path)`: the returned pair, with the heap after the call. -/
def Folder.List (f : Folder) (h : Heap) (path : String) :
    Heap × Option listFolderResponse × Option Addr :=
  let path := if path = "/" then "" else path
  match f.json.MarshalList
      (listFolderRequest.mk path false false false false true) with
  | .error err =>
    let newErr := errorsNew h (some err)
    let h1 := f.log.ToErrorData none "error marshal bodyArgs" newErr.1 newErr.2
    (h1, none, newErr.2)
  | .ok body =>
    Folder.List.outcome f h
      (f.client.Request "POST" f.config.Hosts.Api "/files/list_folder" (requestHeaders f) body)

/-- The `if ... else if ... else` chain of `Folder.Create` over the transport's
answer `(status, response, err)`. -/
def Folder.Create.outcome (f : Folder) (h : Heap) (t : Int × Option Bytes × Option GoError) :
    Heap × Option createFolderResponse × Option Addr :=
  match t with
  | (status, response, err) =>
    if err ≠ none then
      let newErr := errorsNew h err
      let h1 := f.log.ToErrorData (some response) "error creating Folder" newErr.1 newErr.2
      (h1, none, newErr.2)
    else if status ≠ StatusOK then
      let err1 := f.log.ToError (some response) (statusMessage status)
      let r := errorsNew h err1
      (r.1, none, r.2)
    else
      match response with
      | none =>
        let err1 := f.log.ToError none "error creating Folder"
        let r := errorsNew h err1
        (r.1, none, r.2)
      | some bytes =>
        match f.json.UnmarshalCreate bytes with
        | .error err2 =>
          let newErr := errorsNew h (some err2)
          let h1 := f.log.ToErrorData none "error converting Dropbox response data"
            newErr.1 newErr.2
          (h1, none, newErr.2)
        | .ok dropboxResponse => (h, some dropboxResponse, none)

/-- `(f *Folder) Create(path)`: the returned pair, with the heap after the call. -/
def Folder.Create (f : Folder) (h : Heap) (path : String) :
    Heap × Option createFolderResponse × Option Addr :=
  let path := if path = "/" then "" else path
  match f.json.MarshalCreate (createFolderRequest.mk path false) with
  | .error err =>
    let newErr := errorsNew h (some err)
    let h1 := f.log.ToErrorData none "error marshal bodyArgs" newErr.1 newErr.2
    (h1, none, newErr.2)
  | .ok body =>
    Folder.Create.outcome f h
      (f.client.Request "POST" f.config.Hosts.Api "/files/create_folder_v2" (requestHeaders f) body)

/-- A transport that always answers with the given triple. -/
def constGateway (t : Int × Option Bytes × Option GoError) : IGateway :=
  IGateway.mk (fun _ _ _ _ _ => t)

/-- The characters of a string as bytes, each code point taken modulo 256. -/
def lowBytes (s : String) : Bytes :=
  s.toList.map (fun c => Fin.ofNat c.toNat)

/-- A JSON collaborator whose encoders yield the bytes of the path field and
whose decoders accept the empty input only. -/
def sampleJson : Json :=
  Json.mk (fun r => .ok (lowBytes r.Path)) (fun r => .ok (lowBytes r.Path))
    (fun b => if b = [] then .ok (listFolderResponse.mk [] "" false)
      else .error (GoError.foreign "unexpected input"))
    (fun b => if b = [] then
        .ok (createFolderResponse.mk
          (folderMetadata.mk "" "" "" "" (metadataSharingInfo.mk false "" false false) []))
      else .error (GoError.foreign "unexpected input"))

/-- A logger that leaves the heap alone and reports its message as the error. -/
def sampleLogger : Logger :=
  Logger.mk (fun _ _ h _ => h) (fun _ m => some (GoError.foreign m))

/-- A folder client over `constGateway t`. -/
def sampleFolder (t : Int × Option Bytes × Option GoError) : Folder :=
  Folder.mk (constGateway t)
    (DropboxConfig.mk (AuthorizationConfig.mk "Bearer" "token") (HostsConfig.mk "host"))
    sampleJson sampleLogger

end dropbox

namespace goerror

/-! ## Heap lookups after `Add` -/

theorem load_some_eq (h : Heap) (a : Addr) (n : ErrorData) (hn : h[a]? = some n) :
    load h (some a) = .ok n := by
  simp [load, hn]

theorem load_ok_iff (h : Heap) (a : Addr) (n : ErrorData) :
    load h (some a) = .ok n ↔ h[a]? = some n := by
  simp only [load]
  cases hq : h[a]? with
  | none => simp
  | some m => simp

theorem lookup_lt (h : Heap) (a : Addr) (n : ErrorData) (hn : h[a]? = some n) :
    a < h.length := by
  by_contra hc
  have : h[a]? = none := List.getElem?_eq_none (Nat.le_of_not_lt hc)
  rw [this] at hn
  cases hn

theorem Add_eq (h : Heap) (a : Addr) (n : ErrorData) (x : Option GoError)
    (hn : h[a]? = some n) : Add h (some a) x = .ok (addHeap h a n x) := by
  simp [Add, hn, addHeap]

theorem addHeap_length (h : Heap) (a : Addr) (n : ErrorData) (x : Option GoError) :
    (addHeap h a n x).length = h.length + 1 := by
  simp [addHeap]

theorem addHeap_head (h : Heap) (a : Addr) (n : ErrorData) (x : Option GoError)
    (ha : a < h.length) :
    (addHeap h a n x)[a]? = some (ErrorData.mk (some h.length) x) := by
  unfold addHeap
  apply List.getElem?_set_self
  simp only [List.length_append, List.length_singleton]
  exact Nat.lt_succ_of_lt ha

theorem addHeap_other (h : Heap) (a : Addr) (n : ErrorData) (x : Option GoError)
    (b : Addr) (hb : b ≠ a) :
    (addHeap h a n x)[b]? = (h ++ [(ErrorData.mk n.ErrorData n.error)])[b]? := by
  unfold addHeap
  rw [List.getElem?_set_ne (Ne.symm hb)]

theorem addHeap_prev (h : Heap) (a : Addr) (n : ErrorData) (x : Option GoError)
    (ha : a < h.length) :
    (addHeap h a n x)[h.length]? = some (ErrorData.mk n.ErrorData n.error) := by
  rw [addHeap_other h a n x h.length (Nat.ne_of_gt ha)]
  simp

theorem addHeap_frame (h : Heap) (a : Addr) (n : ErrorData) (x : Option GoError)
    (b : Addr) (hb : b ≠ a) (hlt : b < h.length) :
    (addHeap h a n x)[b]? = h[b]? := by
  rw [addHeap_other h a n x b hb, List.getElem?_append_left hlt]

/-! ## Walks along the links -/

theorem causes_succ_iff (h : Heap) (f : Nat) (a : Addr) (cs : List (Option GoError)) :
    causes h (f + 1) (some a) = .ok cs ↔
      ∃ n rest, h[a]? = some n ∧ causes h f n.ErrorData = .ok rest ∧ cs = n.error :: rest := by
  simp only [causes, load]
  cases hq : h[a]? with
  | none => simp [bind, Except.bind]
  | some n =>
    cases hr : causes h f n.ErrorData with
    | error e => simp [bind, Except.bind, hr]
    | ok rest =>
      simp only [bind, Except.bind, hr, Except.ok.injEq, Option.some.injEq]
      constructor
      · intro hc
        exact ⟨n, rest, rfl, hr, hc.symm⟩
      · rintro ⟨m, r, hm, hr2, hcs⟩
        subst hm
        rw [hr] at hr2
        cases hr2
        exact hcs.symm

theorem causes_zero_some (h : Heap) (a : Addr) (cs : List (Option GoError)) :
    causes h 0 (some a) ≠ .ok cs := by
  simp [causes]

theorem causes_none (h : Heap) (f : Nat) : causes h f none = .ok [] := by
  cases f <;> rfl

theorem causes_det (h : Heap) : ∀ (f g : Nat) (p : Option Addr) (c1 c2 : List (Option GoError)),
    causes h f p = .ok c1 → causes h g p = .ok c2 → c1 = c2 := by
  intro f
  induction f with
  | zero =>
    intro g p c1 c2 h1 h2
    cases p with
    | none =>
      rw [causes_none] at h1 h2
      cases h1
      cases h2
      rfl
    | some a => exact absurd h1 (causes_zero_some h a c1)
  | succ f ih =>
    intro g p c1 c2 h1 h2
    cases p with
    | none =>
      rw [causes_none] at h1 h2
      cases h1
      cases h2
      rfl
    | some a =>
      cases g with
      | zero => exact absurd h2 (causes_zero_some h a c2)
      | succ g =>
        obtain ⟨n, r1, hn, hr1, rfl⟩ := (causes_succ_iff h f a c1).1 h1
        obtain ⟨m, r2, hm, hr2, rfl⟩ := (causes_succ_iff h g a c2).1 h2
        rw [hn] at hm
        cases hm
        rw [ih g n.ErrorData r1 r2 hr1 hr2]

theorem causes_length_le (h : Heap) : ∀ (f : Nat) (p : Option Addr) (cs : List (Option GoError)),
    causes h f p = .ok cs → cs.length ≤ f := by
  intro f
  induction f with
  | zero =>
    intro p cs hc
    cases p with
    | none =>
      rw [causes_none] at hc
      cases hc
      simp
    | some a => exact absurd hc (causes_zero_some h a cs)
  | succ f ih =>
    intro p cs hc
    cases p with
    | none =>
      rw [causes_none] at hc
      cases hc
      simp
    | some a =>
      obtain ⟨n, r, _, hr, rfl⟩ := (causes_succ_iff h f a cs).1 hc
      have := ih n.ErrorData r hr
      simp only [List.length_cons]
      omega

theorem causes_fuel (h : Heap) : ∀ (f : Nat) (p : Option Addr) (cs : List (Option GoError)),
    causes h f p = .ok cs → ∀ g, cs.length ≤ g → causes h g p = .ok cs := by
  intro f
  induction f with
  | zero =>
    intro p cs hc g _
    cases p with
    | none =>
      rw [causes_none] at hc
      rw [causes_none]
      exact hc
    | some a => exact absurd hc (causes_zero_some h a cs)
  | succ f ih =>
    intro p cs hc g hg
    cases p with
    | none =>
      rw [causes_none] at hc
      rw [causes_none]
      exact hc
    | some a =>
      obtain ⟨n, r, hn, hr, rfl⟩ := (causes_succ_iff h f a cs).1 hc
      cases g with
      | zero => simp at hg
      | succ g =>
        simp only [List.length_cons, Nat.add_le_add_iff_right] at hg
        exact (causes_succ_iff h g a _).2 ⟨n, r, hn, ih n.ErrorData r hr g hg, rfl⟩

/-- A walk that is shorter than every walk from `a` never meets `a`, so it is
the same in any heap that agrees with `h` away from `a`. -/
theorem causes_frame (h k : Heap) (a : Addr) (L : Nat)
    (hfr : ∀ b, b ≠ a → b < h.length → k[b]? = h[b]?)
    (hL : ∀ g ds, causes h g (some a) = .ok ds → L < ds.length) :
    ∀ (f : Nat) (q : Option Addr) (ds : List (Option GoError)),
      causes h f q = .ok ds → ds.length ≤ L → causes k f q = .ok ds := by
  intro f
  induction f with
  | zero =>
    intro q ds hc _
    cases q with
    | none =>
      rw [causes_none] at hc
      rw [causes_none]
      exact hc
    | some b => exact absurd hc (causes_zero_some h b ds)
  | succ f ih =>
    intro q ds hc hlen
    cases q with
    | none =>
      rw [causes_none] at hc
      rw [causes_none]
      exact hc
    | some b =>
      have hba : b ≠ a := by
        intro hEq
        subst hEq
        have := hL (f + 1) ds hc
        omega
      obtain ⟨n, r, hn, hr, rfl⟩ := (causes_succ_iff h f b ds).1 hc
      have hk : k[b]? = some n := by
        rw [hfr b hba (lookup_lt h b n hn)]
        exact hn
      simp only [List.length_cons] at hlen
      exact (causes_succ_iff k f b _).2 ⟨n, r, hk, ih n.ErrorData r hr (by omega), rfl⟩

/-- Effect of one `Add` on the sequence of causes of a finite chain. -/
theorem Add_causes (h : Heap) (f : Nat) (a : Addr) (x : Option GoError)
    (cs : List (Option GoError)) (hc : causes h f (some a) = .ok cs) :
    ∃ k, Add h (some a) x = .ok k ∧ causes k (f + 1) (some a) = .ok (x :: cs) := by
  cases f with
  | zero => exact absurd hc (causes_zero_some h a cs)
  | succ f =>
    obtain ⟨n, r, hn, hr, rfl⟩ := (causes_succ_iff h f a cs).1 hc
    have ha := lookup_lt h a n hn
    refine ⟨addHeap h a n x, Add_eq h a n x hn, ?_⟩
    have hrest : causes (addHeap h a n x) f n.ErrorData = .ok r := by
      apply causes_frame h (addHeap h a n x) a r.length
        (fun b hb hlt => addHeap_frame h a n x b hb hlt) _ f n.ErrorData r hr (Nat.le_refl _)
      intro g ds hds
      have := causes_det h g (f + 1) (some a) ds (n.error :: r) hds hc
      subst this
      simp
    have hprev : causes (addHeap h a n x) (f + 1) (some h.length) = .ok (n.error :: r) :=
      (causes_succ_iff _ f h.length _).2 ⟨_, r, addHeap_prev h a n x ha, hrest, rfl⟩
    exact (causes_succ_iff _ (f + 1) a _).2 ⟨_, _, addHeap_head h a n x ha, hprev, rfl⟩


/-! ## Calls of `Error()` on a cause -/

theorem callError_none (h : Heap) (f : Nat) :
    callError h f none = .error .nilDereference := by
  cases f <;> rfl

theorem callError_foreign (h : Heap) (f : Nat) (m : String) :
    callError h f (some (.foreign m)) = .ok m := by
  cases f <;> rfl

theorem callError_errorData_zero (h : Heap) (p : Option Addr) :
    callError h 0 (some (.errorData p)) = (load h p >>= fun _ => .error .outOfFuel) := rfl

theorem callError_errorData_succ (h : Heap) (f : Nat) (p : Option Addr) :
    callError h (f + 1) (some (.errorData p)) = (load h p >>= fun n => callError h f n.error) :=
  rfl

/-- One more unit of fuel does not change a call that did not run out. -/
theorem callError_step (h : Heap) : ∀ (f : Nat) (e : Option GoError),
    callError h f e ≠ .error .outOfFuel → callError h (f + 1) e = callError h f e := by
  intro f
  induction f with
  | zero =>
    intro e hne
    match e with
    | none => rfl
    | some (.foreign m) => rfl
    | some (.errorData p) =>
      rw [callError_errorData_zero] at hne ⊢
      rw [callError_errorData_succ]
      cases hl : load h p with
      | error ε => rfl
      | ok n =>
        rw [hl] at hne
        exact absurd rfl hne
  | succ f ih =>
    intro e hne
    match e with
    | none => rfl
    | some (.foreign m) => rfl
    | some (.errorData p) =>
      rw [callError_errorData_succ] at hne ⊢
      rw [callError_errorData_succ]
      cases hl : load h p with
      | error ε => rfl
      | ok n =>
        rw [hl] at hne
        exact ih n.error hne

theorem callError_mono (h : Heap) (f : Nat) (e : Option GoError)
    (hne : callError h f e ≠ .error .outOfFuel) :
    ∀ g, f ≤ g → callError h g e = callError h f e := by
  intro g hg
  induction g with
  | zero =>
    have : f = 0 := by omega
    rw [this]
  | succ g ih =>
    by_cases hfg : f = g + 1
    · rw [hfg]
    · have hle : f ≤ g := by omega
      have hg2 := ih hle
      rw [← hg2] at hne
      rw [callError_step h g e hne, hg2]

/-- A call that does not run out needs some least amount `d` of fuel, and for
every level up to `d` some allocated cell needs exactly that much. -/
theorem callError_levels (h : Heap) : ∀ (f : Nat) (e : Option GoError),
    callError h f e ≠ .error .outOfFuel →
    ∃ d, d ≤ f ∧ callError h d e = callError h f e ∧
      (∀ j, j < d → callError h j e = .error .outOfFuel) ∧
      ∀ i, 1 ≤ i → i ≤ d → ∃ p, p < h.length ∧
        callError h i (some (.errorData (some p))) ≠ .error .outOfFuel ∧
        ∀ j, j < i → callError h j (some (.errorData (some p))) = .error .outOfFuel := by
  intro f
  induction f with
  | zero =>
    intro e _
    exact ⟨0, Nat.le_refl _, rfl, fun j hj => absurd hj (Nat.not_lt_zero j),
      fun i h1 h2 => by omega⟩
  | succ f ih =>
    intro e hne
    match e with
    | none =>
      exact ⟨0, Nat.zero_le _, rfl, fun j hj => absurd hj (Nat.not_lt_zero j),
        fun i h1 h2 => by omega⟩
    | some (.foreign m) =>
      exact ⟨0, Nat.zero_le _, rfl, fun j hj => absurd hj (Nat.not_lt_zero j),
        fun i h1 h2 => by omega⟩
    | some (.errorData p) =>
      cases hl : load h p with
      | error ε =>
        refine ⟨0, Nat.zero_le _, ?_, fun j hj => absurd hj (Nat.not_lt_zero j),
          fun i h1 h2 => by omega⟩
        rw [callError_errorData_zero, callError_errorData_succ, hl]
        rfl
      | ok n =>
        match p, hl with
        | none, hl => cases hl
        | some a, hl =>
          have hn : h[a]? = some n := (load_ok_iff h a n).1 hl
          have hval : callError h (f + 1) (some (.errorData (some a))) = callError h f n.error := by
            rw [callError_errorData_succ, hl]
            rfl
          rw [hval] at hne
          obtain ⟨d, hd, hdeq, hmin, hlev⟩ := ih n.error hne
          have hstep : ∀ j, callError h (j + 1) (some (.errorData (some a)))
              = callError h j n.error := by
            intro j
            rw [callError_errorData_succ, hl]
            rfl
          have hzero : callError h 0 (some (.errorData (some a))) = .error .outOfFuel := by
            rw [callError_errorData_zero, hl]
            rfl
          have hminA : ∀ j, j < d + 1 →
              callError h j (some (.errorData (some a))) = .error .outOfFuel := by
            intro j hj
            cases j with
            | zero => exact hzero
            | succ j =>
              rw [hstep j]
              exact hmin j (by omega)
          refine ⟨d + 1, by omega, ?_, hminA, ?_⟩
          · rw [hstep d, hval, hdeq]
          · intro i h1 h2
            by_cases hi : i = d + 1
            · refine ⟨a, lookup_lt h a n hn, ?_, ?_⟩
              · rw [hi, hstep d, hdeq]
                exact hne
              · intro j hj
                exact hminA j (by omega)
            · exact hlev i h1 (by omega)

/-- The nested `Error()` calls of a call that does not run out fit in the heap:
fuel equal to the number of cells gives the same result. -/
theorem callError_adequate (h : Heap) (f : Nat) (e : Option GoError)
    (hne : callError h f e ≠ .error .outOfFuel) :
    callError h h.length e = callError h f e := by
  obtain ⟨d, _, hdeq, _, hlev⟩ := callError_levels h f e hne
  have hex : ∀ i : Fin d, ∃ p : Fin h.length,
      callError h (i.1 + 1) (some (.errorData (some p.1))) ≠ .error .outOfFuel ∧
      ∀ j, j < i.1 + 1 → callError h j (some (.errorData (some p.1))) = .error .outOfFuel := by
    intro i
    obtain ⟨p, hp, h1, h2⟩ := hlev (i.1 + 1) (by omega) (by have := i.2; omega)
    exact ⟨⟨p, hp⟩, h1, h2⟩
  let g : Fin d → Fin h.length := fun i => Classical.choose (hex i)
  have hg : Function.Injective g := by
    intro i j hij
    have hi := Classical.choose_spec (hex i)
    have hj := Classical.choose_spec (hex j)
    have hij2 : Classical.choose (hex i) = Classical.choose (hex j) := hij
    rw [hij2] at hi
    apply Fin.ext
    by_contra hne2
    rcases Nat.lt_or_gt_of_ne hne2 with hlt | hgt
    · exact hi.1 (hj.2 (i.1 + 1) (by omega))
    · exact hj.1 (hi.2 (j.1 + 1) (by omega))
  have hcard := Fintype.card_le_of_injective g hg
  simp only [Fintype.card_fin] at hcard
  rw [← hdeq] at hne ⊢
  exact callError_mono h d e hne h.length hcard

theorem callError_adequate_ok (h : Heap) (f : Nat) (e : Option GoError) (m : String)
    (hm : callError h f e = .ok m) : callError h h.length e = .ok m := by
  rw [callError_adequate h f e (by rw [hm]; intro hc; cases hc), hm]

/-! ## Rendering -/

theorem join_cons (x : String) (xs : List String) :
    String.join (x :: xs) = x ++ String.join xs := by
  apply String.ext
  simp [String.join_eq]

theorem join_nil : String.join [] = "" := rfl

theorem causes_nil_ptr (h : Heap) (f : Nat) (p : Option Addr)
    (hc : causes h f p = .ok []) : p = none := by
  cases p with
  | none => rfl
  | some a =>
    cases f with
    | zero => exact absurd hc (causes_zero_some h a [])
    | succ f =>
      obtain ⟨n, r, _, _, hnil⟩ := (causes_succ_iff h f a []).1 hc
      cases hnil

theorem causes_cons_ptr (h : Heap) (f : Nat) (p : Option Addr) (c : Option GoError)
    (cs : List (Option GoError)) (hc : causes h f p = .ok (c :: cs)) :
    ∃ a n g, p = some a ∧ f = g + 1 ∧ h[a]? = some n ∧ n.error = c ∧
      causes h g n.ErrorData = .ok cs := by
  cases p with
  | none =>
    rw [causes_none] at hc
    cases hc
  | some a =>
    cases f with
    | zero => exact absurd hc (causes_zero_some h a _)
    | succ f =>
      obtain ⟨n, r, hn, hr, hEq⟩ := (causes_succ_iff h f a _).1 hc
      cases hEq
      exact ⟨a, n, f, rfl, rfl, hn, rfl, hr⟩

/-- The loop of `Cause` appends one segment per remaining node, each naming the
message of the node right below the head. -/
theorem Cause_loop_eq (h : Heap) (a b : Addr) (hd sec : ErrorData) (cf : Nat) (s : String)
    (hhd : h[a]? = some hd) (hb : hd.ErrorData = some b) (hsec : h[b]? = some sec)
    (hs : callError h cf sec.error = .ok s) :
    ∀ (ds : List (Option GoError)) (f : Nat) (q : Option Addr) (str : String),
      causes h f q = .ok ds → ∀ lf, Cause.loop h (some a) cf lf q str =
        if ds.length ≤ lf then
          .ok (str ++ String.join (List.replicate ds.length (sprintfCausedBy s)))
        else .error .outOfFuel := by
  intro ds
  induction ds with
  | nil =>
    intro f q str hc lf
    have := causes_nil_ptr h f q hc
    subst this
    cases lf <;> simp [Cause.loop, join_nil]
  | cons d ds ih =>
    intro f q str hc lf
    obtain ⟨nx, n, f1, rfl, rfl, hn, _, hr⟩ := causes_cons_ptr h f q d ds hc
    cases lf with
    | zero => simp [Cause.loop]
    | succ lf =>
      simp only [Cause.loop, load, hhd, hb, hsec, hs, hn, bind, Except.bind]
      rw [ih f1 n.ErrorData _ hr lf]
      simp only [List.length_cons, Nat.add_le_add_iff_right, List.replicate_succ, join_cons,
        String.append_assoc]

/-- The loop of the specified traversal appends one segment per remaining node,
naming that node's message. -/
theorem Trace_loop_eq (h : Heap) (cf : Nat) :
    ∀ (ds : List String) (f : Nat) (q : Option Addr) (str : String),
      causes h f q = .ok (ds.map (fun m => some (GoError.foreign m))) →
      ∀ lf, Trace.loop h cf lf q str =
        if ds.length ≤ lf then
          .ok (str ++ String.join (ds.map sprintfCausedBy))
        else .error .outOfFuel := by
  intro ds
  induction ds with
  | nil =>
    intro f q str hc lf
    have := causes_nil_ptr h f q hc
    subst this
    cases lf <;> simp [Trace.loop, join_nil]
  | cons d ds ih =>
    intro f q str hc lf
    obtain ⟨nx, n, f1, rfl, rfl, hn, he, hr⟩ := causes_cons_ptr h f q _ _ hc
    cases lf with
    | zero => simp [Trace.loop]
    | succ lf =>
      simp only [Trace.loop, load, hn, he, callError_foreign, bind, Except.bind]
      rw [ih f1 n.ErrorData _ hr lf]
      simp only [List.length_cons, Nat.add_le_add_iff_right, List.map_cons, join_cons,
        String.append_assoc]

/-- Closed form of `Cause` on a finite chain, given what the two `Error()` calls
it makes return: the one on the head's cause and, when there is a second node,
the one on that node's cause. -/
theorem CauseFuel_eq (h : Heap) (f : Nat) (a : Addr) (c : Option GoError)
    (cs : List (Option GoError)) (cf : Nat) (m s : String)
    (hc : causes h f (some a) = .ok (c :: cs))
    (hm : callError h cf c = .ok m)
    (hs : cs ≠ [] → callError h cf (cs.headD none) = .ok s) (lf : Nat) :
    CauseFuel lf cf h (some a) =
      if cs.length ≤ lf then
        .ok (sprintfQuoted m ++
          String.join (List.replicate cs.length (sprintfCausedBy s)))
      else .error .outOfFuel := by
  obtain ⟨a1, hd, f1, ha, rfl, hhd, he, hr⟩ := causes_cons_ptr h f (some a) _ _ hc
  cases ha
  subst he
  cases cs with
  | nil =>
    have hp := causes_nil_ptr h f1 hd.ErrorData hr
    simp only [CauseFuel, load, hhd, hm, bind, Except.bind, hp]
    cases lf <;> simp [Cause.loop, join_nil]
  | cons c2 cs =>
    obtain ⟨b, sec, f2, hb, rfl, hsec, hg, _⟩ := causes_cons_ptr h f1 hd.ErrorData _ _ hr
    have hs2 : callError h cf sec.error = .ok s := by
      rw [hg]
      exact hs (List.cons_ne_nil _ _)
    simp only [CauseFuel, load, hhd, hm, bind, Except.bind]
    rw [Cause_loop_eq h a b hd sec cf s hhd hb hsec hs2 _ _ _ _ hr lf]

/-- When the `Error()` call on the head's cause fails, so does `Cause`, with the
same fault. -/
theorem CauseFuel_head_fault (h : Heap) (a : Addr) (hd : ErrorData) (lf cf : Nat) (ε : Fault)
    (hhd : h[a]? = some hd) (hm : callError h cf hd.error = .error ε) :
    CauseFuel lf cf h (some a) = .error ε := by
  simp only [CauseFuel, load, hhd, hm, bind, Except.bind]

/-- When the `Error()` call on the second node's cause fails, so does every run
of `Cause` that enters its loop, with the same fault. -/
theorem CauseFuel_second_fault (h : Heap) (f : Nat) (a : Addr) (c c2 : Option GoError)
    (cs : List (Option GoError)) (lf cf : Nat) (m : String) (ε : Fault)
    (hc : causes h f (some a) = .ok (c :: c2 :: cs))
    (hm : callError h cf c = .ok m) (hs : callError h cf c2 = .error ε) :
    CauseFuel (lf + 1) cf h (some a) = .error ε := by
  obtain ⟨a1, hd, f1, ha, rfl, hhd, he, hr⟩ := causes_cons_ptr h f (some a) _ _ hc
  cases ha
  subst he
  obtain ⟨b, sec, f2, hb, rfl, hsec, hg, _⟩ := causes_cons_ptr h f1 hd.ErrorData _ _ hr
  subst hg
  simp only [CauseFuel, load, hhd, hm, hb, hsec, hs, Cause.loop, bind, Except.bind]

/-- Closed form of the specified traversal on a finite chain whose causes all
return their message. -/
theorem TraceFuel_eq (h : Heap) (f : Nat) (a : Addr) (m : String) (ms : List String)
    (hc : causes h f (some a) = .ok ((m :: ms).map (fun s => some (GoError.foreign s))))
    (lf cf : Nat) :
    TraceFuel lf cf h (some a) =
      if ms.length ≤ lf then .ok (renderedTrace (m :: ms))
      else .error .outOfFuel := by
  obtain ⟨a1, hd, f1, ha, rfl, hhd, he, hr⟩ := causes_cons_ptr h f (some a) _ _ hc
  cases ha
  simp only [TraceFuel, load, hhd, he, callError_foreign, bind, Except.bind]
  rw [Trace_loop_eq h cf ms f1 hd.ErrorData _ hr lf]
  simp [renderedTrace, traceSegments, join_cons]

/-! ## Chains built by `NewError` and `Add` -/

theorem addAll_causes (xs : List (Option GoError)) :
    ∀ (h : Heap) (f : Nat) (a : Addr) (cs : List (Option GoError)),
      causes h f (some a) = .ok cs →
      ∃ k, addAll h (some a) xs = .ok k ∧ k.length = h.length + xs.length ∧
        causes k (f + xs.length) (some a) = .ok (xs.reverse ++ cs) := by
  induction xs with
  | nil =>
    intro h f a cs hc
    exact ⟨h, rfl, rfl, hc⟩
  | cons x xs ih =>
    intro h f a cs hc
    obtain ⟨k1, hk1, hc1⟩ := Add_causes h f a x cs hc
    have hlen1 : k1.length = h.length + 1 := by
      cases f with
      | zero => exact absurd hc (causes_zero_some h a cs)
      | succ f =>
        obtain ⟨n0, _, hn0, _, _⟩ := (causes_succ_iff h f a cs).1 hc
        rw [Add_eq h a n0 x hn0] at hk1
        cases hk1
        exact addHeap_length h a n0 x
    obtain ⟨k, hk, hlen, hck⟩ := ih k1 (f + 1) a (x :: cs) hc1
    refine ⟨k, ?_, ?_, ?_⟩
    · simp only [addAll, bind, Except.bind, hk1, hk]
    · rw [hlen, hlen1, List.length_cons]
      omega
    · rw [List.length_cons, List.reverse_cons, List.append_assoc]
      rw [show f + (xs.length + 1) = f + 1 + xs.length by omega]
      exact hck

theorem NewError_causes (h0 : Heap) (e1 : Option GoError) :
    causes (NewError h0 e1).1 1 (some h0.length) = .ok [e1] := by
  apply (causes_succ_iff _ 0 h0.length _).2
  refine ⟨ErrorData.mk none e1, [], ?_, ?_, rfl⟩
  · simp [NewError]
  · rfl

/-- The chain built from `e1` and `xs`: it exists, lives at the address
`NewError` returned, and its causes are the inputs, newest first. -/
theorem build_causes (h0 : Heap) (e1 : Option GoError) (xs : List (Option GoError)) :
    ∃ k, build h0 e1 xs = .ok (k, some h0.length) ∧ k.length = h0.length + 1 + xs.length ∧
      causes k (xs.length + 1) (some h0.length) = .ok (xs.reverse ++ [e1]) := by
  obtain ⟨k, hk, hlen, hc⟩ :=
    addAll_causes xs (NewError h0 e1).1 1 h0.length [e1] (NewError_causes h0 e1)
  refine ⟨k, ?_, ?_, ?_⟩
  · have : (NewError h0 e1).2 = some h0.length := rfl
    simp only [build, bind, Except.bind, this, hk]
  · rw [hlen]
    simp [NewError]
  · rw [Nat.add_comm]
    exact hc

/-! ## A finite chain fits in the heap -/

theorem causes_levels (h : Heap) :
    ∀ (f : Nat) (p : Option Addr) (ds : List (Option GoError)), causes h f p = .ok ds →
      ∀ i, 1 ≤ i → i ≤ ds.length →
        ∃ b, b < h.length ∧ ∃ es, causes h i (some b) = .ok es ∧ es.length = i := by
  intro f
  induction f with
  | zero =>
    intro p ds hc i h1 h2
    cases p with
    | none =>
      rw [causes_none] at hc
      cases hc
      simp only [List.length_nil] at h2
      omega
    | some a => exact absurd hc (causes_zero_some h a ds)
  | succ f ih =>
    intro p ds hc i h1 h2
    cases p with
    | none =>
      rw [causes_none] at hc
      cases hc
      simp only [List.length_nil] at h2
      omega
    | some a =>
      obtain ⟨n, r, hn, hr, hEq⟩ := (causes_succ_iff h f a ds).1 hc
      by_cases hi : i = ds.length
      · refine ⟨a, lookup_lt h a n hn, ds, ?_, hi.symm⟩
        rw [hi]
        exact causes_fuel h (f + 1) (some a) ds hc ds.length (Nat.le_refl _)
      · apply ih n.ErrorData r hr i h1
        rw [hEq, List.length_cons] at h2 hi
        omega

/-- The nodes of a finite chain are distinct cells of the heap. -/
theorem causes_length_le_heap (h : Heap) (f : Nat) (p : Option Addr)
    (ds : List (Option GoError)) (hc : causes h f p = .ok ds) : ds.length ≤ h.length := by
  have hlev := causes_levels h f p ds hc
  have hex : ∀ i : Fin ds.length,
      ∃ b : Fin h.length, ∃ es, causes h (i.1 + 1) (some b.1) = .ok es ∧ es.length = i.1 + 1 := by
    intro i
    obtain ⟨b, hb, es, hes, hl⟩ := hlev (i.1 + 1) (by omega) (by have := i.2; omega)
    exact ⟨⟨b, hb⟩, es, hes, hl⟩
  let g : Fin ds.length → Fin h.length := fun i => Classical.choose (hex i)
  have hg : Function.Injective g := by
    intro i j hij
    obtain ⟨ei, hei, hli⟩ := Classical.choose_spec (hex i)
    obtain ⟨ej, hej, hlj⟩ := Classical.choose_spec (hex j)
    have hij2 : (Classical.choose (hex i)) = (Classical.choose (hex j)) := hij
    rw [hij2] at hei
    have := causes_det h _ _ _ ei ej hei hej
    subst this
    apply Fin.ext
    omega
  have := Fintype.card_le_of_injective g hg
  simpa using this

theorem Cause_loop_none (h : Heap) (e : Option Addr) (cf fuel : Nat) (str : String) :
    Cause.loop h e cf fuel none str = .ok str := by
  cases fuel <;> rfl

theorem Trace_loop_none (h : Heap) (cf fuel : Nat) (str : String) :
    Trace.loop h cf fuel none str = .ok str := by
  cases fuel <;> rfl

/-- On a chain of at most two nodes the two traversals run alike, whatever the
fuel and whatever the nodes hold. -/
theorem CauseFuel_eq_TraceFuel (h : Heap) (f : Nat) (a : Addr) (cs : List (Option GoError))
    (hc : causes h f (some a) = .ok cs) (hlen : cs.length ≤ 2) (lf cf : Nat) :
    CauseFuel lf cf h (some a) = TraceFuel lf cf h (some a) := by
  cases f with
  | zero => exact absurd hc (causes_zero_some h a cs)
  | succ f =>
    obtain ⟨hd, r, hhd, hr, rfl⟩ := (causes_succ_iff h f a cs).1 hc
    cases r with
    | nil =>
      have hp := causes_nil_ptr h f hd.ErrorData hr
      simp only [CauseFuel, TraceFuel, load, hhd, hp, bind, Except.bind]
      cases callError h cf hd.error with
      | error e => rfl
      | ok m => simp only [Cause_loop_none, Trace_loop_none]
    | cons c r2 =>
      obtain ⟨b, sec, f2, hb, rfl, hsec, _, hr2⟩ := causes_cons_ptr h f hd.ErrorData _ _ hr
      have hr2nil : r2 = [] := by
        cases r2 with
        | nil => rfl
        | cons y ys =>
          simp only [List.length_cons] at hlen
          omega
      subst hr2nil
      have hp := causes_nil_ptr h f2 sec.ErrorData hr2
      simp only [CauseFuel, TraceFuel, load, hhd, bind, Except.bind]
      cases callError h cf hd.error with
      | error e => rfl
      | ok m =>
        cases lf with
        | zero => simp only [hb, Cause.loop, Trace.loop]
        | succ lf =>
          simp only [hb, Cause.loop, Trace.loop, load, hhd, hsec, hp, bind, Except.bind]

end goerror

namespace goerror

/-! ## Finite chains and built chains, in closed form -/

theorem headD_map_some (l : List GoError) : (l.map some).headD none = l.head? := by
  cases l <;> rfl

/-- `Cause` on a finite chain, for every fuel and at the bound of the heap, given
what the `Error()` calls on the first two causes return. The segments are the
formatted first message and one formatted segment per further node, each with
the second message. -/
theorem chain_cause (h : Heap) (f : Nat) (a : Addr) (c : Option GoError)
    (cs : List (Option GoError)) (cf : Nat) (m s : String)
    (hc : causes h f (some a) = .ok (c :: cs))
    (hm : callError h cf c = .ok m)
    (hs : cs ≠ [] → callError h cf (cs.headD none) = .ok s) :
    (∀ lf, CauseFuel lf cf h (some a) =
      if cs.length ≤ lf then
        .ok (String.join (sprintfQuoted m :: List.replicate cs.length (sprintfCausedBy s)))
      else .error .outOfFuel) ∧
    Cause h (some a) = .ok (String.join
      (sprintfQuoted m :: List.replicate cs.length (sprintfCausedBy s))) := by
  constructor
  · intro lf
    rw [CauseFuel_eq h f a c cs cf m s hc hm hs lf, join_cons]
  · have hle := causes_length_le_heap h f (some a) _ hc
    simp only [List.length_cons] at hle
    have hm2 := callError_adequate_ok h cf c m hm
    have hs2 : cs ≠ [] → callError h h.length (cs.headD none) = .ok s :=
      fun hne => callError_adequate_ok h cf _ s (hs hne)
    unfold Cause
    rw [CauseFuel_eq h f a c cs h.length m s hc hm2 hs2 h.length, if_pos (by omega), join_cons]

/-- With a second node and fuel for no iteration, `Cause` runs out in its loop
once the `Error()` call on the head's cause has returned. -/
theorem CauseFuel_no_fuel (h : Heap) (f : Nat) (a : Addr) (c c2 : Option GoError)
    (cs : List (Option GoError)) (cf : Nat) (m : String)
    (hc : causes h f (some a) = .ok (c :: c2 :: cs)) (hm : callError h cf c = .ok m) :
    CauseFuel 0 cf h (some a) = .error .outOfFuel := by
  obtain ⟨a1, hd, f1, ha, rfl, hhd, he, hr⟩ := causes_cons_ptr h f (some a) _ _ hc
  cases ha
  subst he
  obtain ⟨b, sec, f2, hb, rfl, hsec, hg, _⟩ := causes_cons_ptr h f1 hd.ErrorData _ _ hr
  simp only [CauseFuel, load, hhd, hm, hb, Cause.loop, bind, Except.bind]

/-- A nil dereference reported by `Cause` on a finite chain comes out of one of
the `Error()` calls on the first two causes. -/
theorem chain_cause_nil_origin (h : Heap) (f : Nat) (a : Addr) (c : Option GoError)
    (cs : List (Option GoError)) (lf cf : Nat)
    (hc : causes h f (some a) = .ok (c :: cs))
    (hnil : CauseFuel lf cf h (some a) = .error .nilDereference) :
    callError h cf c = .error .nilDereference ∨
      (cs ≠ [] ∧ callError h cf (cs.headD none) = .error .nilDereference) := by
  cases hm : callError h cf c with
  | error ε =>
    obtain ⟨a1, hd, f1, ha, _, hhd, he, _⟩ := causes_cons_ptr h f (some a) _ _ hc
    cases ha
    subst he
    rw [CauseFuel_head_fault h a hd lf cf ε hhd hm] at hnil
    left
    exact hnil
  | ok m =>
    cases cs with
    | nil =>
      rw [CauseFuel_eq h f a c [] cf m "" hc hm (fun hne => absurd rfl hne) lf] at hnil
      simp at hnil
    | cons c2 cs =>
      cases hs : callError h cf c2 with
      | error ε =>
        cases lf with
        | zero =>
          rw [CauseFuel_no_fuel h f a c c2 cs cf m hc hm] at hnil
          cases hnil
        | succ lf =>
          rw [CauseFuel_second_fault h f a c c2 cs lf cf m ε hc hm hs] at hnil
          right
          exact ⟨List.cons_ne_nil _ _, hs.trans hnil⟩
      | ok s =>
        rw [CauseFuel_eq h f a c (c2 :: cs) cf m s hc hm (fun _ => hs) lf] at hnil
        split at hnil <;> cases hnil

/-- The chain built from `e1` and then `es`: where it lives, how large the heap
is, and its causes, newest first. -/
theorem built_core (h0 : Heap) (e1 : GoError) (es : List GoError) :
    ∃ k c cs, build h0 (some e1) (es.map some) = .ok (k, some h0.length) ∧
      k.length = h0.length + 1 + es.length ∧
      (e1 :: es).reverse = c :: cs ∧ cs.length = es.length ∧
      causes k (es.length + 1) (some h0.length) = .ok (some c :: cs.map some) := by
  obtain ⟨k, hk, hlen, hc⟩ := build_causes h0 (some e1) (es.map some)
  cases hr : (e1 :: es).reverse with
  | nil =>
    have := congrArg List.length hr
    simp at this
  | cons c cs =>
    have hl := congrArg List.length hr
    simp only [List.length_reverse, List.length_cons] at hl
    refine ⟨k, c, cs, hk, by simpa using hlen, rfl, by omega, ?_⟩
    have hrev : (es.map some).reverse ++ [some e1] = ((e1 :: es).reverse).map some := by
      simp [List.map_reverse]
    rw [List.length_map, hrev, hr] at hc
    simpa using hc

/-- A cell whose cause is the cell's own address: the `Error()` call on that
cause never returns. -/
theorem callError_self (h : Heap) (a : Addr) (n : ErrorData) (hn : h[a]? = some n)
    (he : n.error = some (.errorData (some a))) :
    ∀ cf, callError h cf (some (.errorData (some a))) = .error .outOfFuel := by
  intro cf
  induction cf with
  | zero => simp [callError, load, hn, bind, Except.bind]
  | succ cf ih =>
    rw [callError_errorData_succ]
    simp only [load, hn, bind, Except.bind, he]
    exact ih

end goerror

/-! ## The claims on the error chain -/

namespace goerror

/-- C1 (the code departs from the claim): on the chain built by `NewError(a)`,
`Add(b)`, `Add(c)` the function `Cause` returns `'c', caused by 'b', caused by 'b'`,
which is not the newest-to-oldest narrative `'c', caused by 'b', caused by 'a'`
that the claim requires: the message of the oldest cause is missing. -/
theorem Cause_three_nodes_drops_oldest :
    (build [] (some (GoError.foreign "a"))
        [some (GoError.foreign "b"), some (GoError.foreign "c")]
        >>= fun r => Cause r.1 r.2) = .ok "'c', caused by 'b', caused by 'b'" ∧
      renderedTrace ["c", "b", "a"] = "'c', caused by 'b', caused by 'a'" ∧
      (build [] (some (GoError.foreign "a"))
        [some (GoError.foreign "b"), some (GoError.foreign "c")]
        >>= fun r => Trace r.1 r.2) = .ok "'c', caused by 'b', caused by 'a'" ∧
      "'c', caused by 'b', caused by 'b'" ≠ renderedTrace ["c", "b", "a"] := by
  refine ⟨rfl, rfl, rfl, ?_⟩
  decide

/-- C2: `Error()` returns the message of the most recently supplied cause.
`NewError(e).Error()` is `e.Error()`, and after `c.Add(e2)` on any allocated
chain head `c`, whatever the heap holds, `c.Error()` is `e2.Error()`; for a cause
whose `Error()` returns the message `m`, the result is `m`. -/
theorem Error_newest_wins (h : Heap) (a : Addr) (e e2 : GoError) (m m2 : String)
    (ha : a < h.length) :
    (∀ cf, ErrorFuel cf (NewError h (some e)).1 (NewError h (some e)).2
        = callError (NewError h (some e)).1 cf (some e)) ∧
      Error (NewError h (some (.foreign m))).1 (NewError h (some (.foreign m))).2 = .ok m ∧
      (∃ k, Add h (some a) (some e2) = .ok k ∧
        (∀ cf, ErrorFuel cf k (some a) = callError k cf (some e2)) ∧
        Error k (some a) = callError k k.length (some e2)) ∧
      ∃ k, Add h (some a) (some (.foreign m2)) = .ok k ∧ Error k (some a) = .ok m2 := by
  have hn : h[a]? = some (h.get ⟨a, ha⟩) := by
    simp [List.getElem?_eq_getElem ha]
  refine ⟨?_, ?_, ⟨_, Add_eq h a _ (some e2) hn, ?_, ?_⟩,
    ⟨_, Add_eq h a _ (some (.foreign m2)) hn, ?_⟩⟩
  · intro cf
    simp [ErrorFuel, NewError, load, bind, Except.bind]
  · simp [Error, ErrorFuel, NewError, load, callError_foreign, bind, Except.bind]
  · intro cf
    simp only [ErrorFuel, load, addHeap_head h a _ (some e2) ha, bind, Except.bind]
  · simp only [Error, ErrorFuel, load, addHeap_head h a _ (some e2) ha, bind, Except.bind]
  · simp only [Error, ErrorFuel, load, addHeap_head h a _ (some (.foreign m2)) ha,
      callError_foreign, bind, Except.bind]

theorem Error_newest_wins_witness :
    0 < [ErrorData.mk none (some (GoError.foreign "old"))].length ∧
      ((∀ cf, ErrorFuel cf
          (NewError [ErrorData.mk none (some (GoError.foreign "old"))]
            (some (GoError.errorData (some 0)))).1
          (NewError [ErrorData.mk none (some (GoError.foreign "old"))]
            (some (GoError.errorData (some 0)))).2
        = callError
          (NewError [ErrorData.mk none (some (GoError.foreign "old"))]
            (some (GoError.errorData (some 0)))).1 cf (some (GoError.errorData (some 0)))) ∧
      Error (NewError [ErrorData.mk none (some (GoError.foreign "old"))]
            (some (GoError.foreign "e"))).1
          (NewError [ErrorData.mk none (some (GoError.foreign "old"))]
            (some (GoError.foreign "e"))).2
        = .ok "e" ∧
      (∃ k, Add [ErrorData.mk none (some (GoError.foreign "old"))] (some 0)
            (some (GoError.errorData none)) = .ok k ∧
        (∀ cf, ErrorFuel cf k (some 0) = callError k cf (some (GoError.errorData none))) ∧
        Error k (some 0) = callError k k.length (some (GoError.errorData none))) ∧
      ∃ k, Add [ErrorData.mk none (some (GoError.foreign "old"))] (some 0)
            (some (GoError.foreign "new")) = .ok k ∧
        Error k (some 0) = .ok "new") :=
  ⟨by decide, Error_newest_wins [ErrorData.mk none (some (GoError.foreign "old"))] 0
    (GoError.errorData (some 0)) (GoError.errorData none) "e" "new" (by decide)⟩


/-- C3: `Add` never loses or rewrites history. If the head cell at `a` holds
current `x` and previous `p`, then after `Add(e2)` the head holds current `e2`
and points at a freshly allocated cell holding current `x` and previous `p`,
every other cell of the heap is unchanged, and the sequence of causes of a
finite chain is `e2` prepended to the sequence before the call. -/
theorem Add_keeps_history (h : Heap) (a : Addr) (x : Option GoError) (p : Option Addr)
    (e2 : Option GoError) (hn : h[a]? = some (ErrorData.mk p x)) :
    ∃ k, Add h (some a) e2 = .ok k ∧
      (∃ b, k[a]? = some (ErrorData.mk (some b) e2) ∧ k[b]? = some (ErrorData.mk p x) ∧
        h[b]? = none) ∧
      (∀ c, c ≠ a → c < h.length → k[c]? = h[c]?) ∧
      (∀ f cs, causes h f (some a) = .ok cs → causes k (f + 1) (some a) = .ok (e2 :: cs)) := by
  have ha := lookup_lt h a _ hn
  refine ⟨addHeap h a (ErrorData.mk p x) e2, Add_eq h a _ e2 hn, ?_, ?_, ?_⟩
  · exact ⟨h.length, addHeap_head h a _ e2 ha, addHeap_prev h a _ e2 ha,
      List.getElem?_eq_none (Nat.le_refl _)⟩
  · intro c hc hlt
    exact addHeap_frame h a _ e2 c hc hlt
  · intro f cs hcs
    obtain ⟨k, hk, hck⟩ := Add_causes h f a e2 cs hcs
    rw [Add_eq h a _ e2 hn] at hk
    cases hk
    exact hck

theorem Add_keeps_history_witness :
    [ErrorData.mk (some 1) (some (GoError.foreign "x")), ErrorData.mk none (some (GoError.foreign "w"))][0]?
        = some (ErrorData.mk (some 1) (some (GoError.foreign "x"))) ∧
      ∃ k, Add [ErrorData.mk (some 1) (some (GoError.foreign "x")),
            ErrorData.mk none (some (GoError.foreign "w"))] (some 0) (some (GoError.foreign "y")) = .ok k ∧
        (∃ b, k[0]? = some (ErrorData.mk (some b) (some (GoError.foreign "y"))) ∧
          k[b]? = some (ErrorData.mk (some 1) (some (GoError.foreign "x"))) ∧
          [ErrorData.mk (some 1) (some (GoError.foreign "x")),
            ErrorData.mk none (some (GoError.foreign "w"))][b]? = none) ∧
        (∀ c, c ≠ 0 →
          c < [ErrorData.mk (some 1) (some (GoError.foreign "x")),
            ErrorData.mk none (some (GoError.foreign "w"))].length →
          k[c]? = [ErrorData.mk (some 1) (some (GoError.foreign "x")),
            ErrorData.mk none (some (GoError.foreign "w"))][c]?) ∧
        (∀ f cs, causes [ErrorData.mk (some 1) (some (GoError.foreign "x")),
            ErrorData.mk none (some (GoError.foreign "w"))] f (some 0) = .ok cs →
          causes k (f + 1) (some 0) = .ok (some (GoError.foreign "y") :: cs)) :=
  ⟨rfl, Add_keeps_history _ 0 (some (GoError.foreign "x")) (some 1) (some (GoError.foreign "y")) rfl⟩

/-- C4 (the claim fails on the code): `Add` called on a nil `*ErrorData` does
not yield a chain, it stops at the nil dereference of `e.ErrorData`. -/
theorem Add_nil_receiver_faults :
    Add [] none (some (GoError.foreign "m")) = .error .nilDereference ∧
      ¬ ∃ k, Add [] none (some (GoError.foreign "m")) = .ok k := by
  refine ⟨rfl, ?_⟩
  rintro ⟨k, hk⟩
  cases hk

/-- C4 (amended): for every error `e`, `Add(e)` on a nil `*ErrorData` fails with
a nil dereference, in every heap; the fresh chain for `e` is the one `NewError(e)`
returns, which has no previous and whose `Cause()` is the quoted result of
`e.Error()`: the quoted message `m` when `e.Error()` returns `m`. -/
theorem Add_nil_receiver_amended (h : Heap) (e : GoError) (m : String) :
    Add h none (some e) = .error .nilDereference ∧
      load (NewError h (some e)).1 (NewError h (some e)).2 = .ok (ErrorData.mk none (some e)) ∧
      (∀ lf cf, CauseFuel lf cf (NewError h (some e)).1 (NewError h (some e)).2 =
        (callError (NewError h (some e)).1 cf (some e)).map (fun s => "'" ++ s ++ "'")) ∧
      Cause (NewError h (some (.foreign m))).1 (NewError h (some (.foreign m))).2
        = .ok ("'" ++ m ++ "'") := by
  refine ⟨rfl, ?_, ?_, ?_⟩
  · simp [NewError, load]
  · intro lf cf
    simp only [CauseFuel, NewError, load, bind, Except.bind, List.getElem?_concat_length]
    cases callError (h ++ [ErrorData.mk none (some e)]) cf (some e) with
    | error ε => rfl
    | ok s => simp [Cause_loop_none, sprintfQuoted, Except.map]
  · simp [Cause, CauseFuel, NewError, load, callError_foreign, bind, Except.bind,
      Cause_loop_none, sprintfQuoted]

theorem head_map_foreign (l : List String) (hl : l ≠ []) :
    (l.map GoError.foreign).head? = some (GoError.foreign (l.headD "")) := by
  cases l with
  | nil => exact absurd rfl hl
  | cons x xs => rfl

theorem newest_foreign (m1 : String) (ms : List String) :
    (GoError.foreign m1 :: ms.map GoError.foreign).reverse.head?
      = some (GoError.foreign ((m1 :: ms).reverse.headD "")) := by
  have h1 : (GoError.foreign m1 :: ms.map GoError.foreign).reverse
      = ((m1 :: ms).reverse).map GoError.foreign := by
    rw [← List.map_cons, List.map_reverse]
  rw [h1]
  apply head_map_foreign
  intro hnil
  have := congrArg List.length hnil
  simp at this

theorem second_foreign (m1 : String) (ms : List String) (hms : ms ≠ []) :
    (GoError.foreign m1 :: ms.map GoError.foreign).reverse.tail.head?
      = some (GoError.foreign ((m1 :: ms).reverse.tail.headD "")) := by
  have h1 : (GoError.foreign m1 :: ms.map GoError.foreign).reverse
      = ((m1 :: ms).reverse).map GoError.foreign := by
    rw [← List.map_cons, List.map_reverse]
  rw [h1, ← List.map_tail]
  apply head_map_foreign
  intro hnil
  have := congrArg List.length hnil
  simp only [List.length_tail, List.length_reverse, List.length_cons, List.length_nil,
    Nat.add_sub_cancel] at this
  exact hms (List.length_eq_zero.1 this)

/-- Everything the claims use about the chain built from `e1` and then `es`. -/
theorem built_chain (h0 : Heap) (e1 : GoError) (es : List GoError) :
    ∃ k, build h0 (some e1) (es.map some) = .ok (k, some h0.length) ∧
      depth k k.length (some h0.length) = .ok (es.length + 1) ∧
      (∃ cs : List GoError, cs.length = es.length + 1 ∧
        causes k k.length (some h0.length) = .ok (cs.map some)) ∧
      (∀ e, ∃ k2, Add k (some h0.length) e = .ok k2) ∧
      (∀ cf, ErrorFuel cf k (some h0.length) = callError k cf (e1 :: es).reverse.head?) ∧
      (∀ cf m s, callError k cf (e1 :: es).reverse.head? = .ok m →
        (es ≠ [] → callError k cf (e1 :: es).reverse.tail.head? = .ok s) →
        (∀ lf, CauseFuel lf cf k (some h0.length) =
          if es.length ≤ lf then
            .ok (String.join (sprintfQuoted m ::
              List.replicate es.length (sprintfCausedBy s)))
          else .error .outOfFuel) ∧
        Cause k (some h0.length) = .ok (String.join (sprintfQuoted m ::
          List.replicate es.length (sprintfCausedBy s)))) ∧
      (∀ lf cf, CauseFuel lf cf k (some h0.length) = .error .nilDereference →
        callError k cf (e1 :: es).reverse.head? = .error .nilDereference ∨
          (es ≠ [] ∧
            callError k cf (e1 :: es).reverse.tail.head? = .error .nilDereference)) := by
  obtain ⟨k, c, cs, hk, hlen, hrev, hcs, hc⟩ := built_core h0 e1 es
  have hne : es ≠ [] → cs.map some ≠ [] := by
    intro h1 h2
    have := congrArg List.length h2
    simp only [List.length_map, List.length_nil, hcs] at this
    exact h1 (List.length_eq_zero.1 this)
  have hne2 : cs.map some ≠ [] → es ≠ [] := by
    intro h1 h2
    apply h1
    rw [h2] at hcs
    simp only [List.length_nil] at hcs
    rw [List.length_eq_zero.1 hcs]
    rfl
  have hfull : causes k k.length (some h0.length) = .ok (some c :: cs.map some) :=
    causes_fuel k _ _ _ hc k.length (by
      simp only [List.length_map, List.length_cons, hcs, hlen]
      omega)
  refine ⟨k, hk, ?_, ⟨c :: cs, ?_, ?_⟩, ?_, ?_, ?_, ?_⟩
  · simp only [depth, hfull, bind, Except.bind, List.length_map, List.length_cons, hcs]
  · simp [hcs]
  · simpa using hfull
  · intro e
    obtain ⟨k2, hk2, _⟩ := Add_causes k _ h0.length e _ hc
    exact ⟨k2, hk2⟩
  · intro cf
    obtain ⟨a1, hd, f1, ha, _, hhd, he, _⟩ := causes_cons_ptr k _ (some h0.length) _ _ hc
    cases ha
    simp only [ErrorFuel, load, hhd, bind, Except.bind, he, hrev, List.head?_cons]
  · intro cf m s hm hs
    rw [hrev] at hm hs
    simp only [List.head?_cons, List.tail_cons] at hm hs
    have hs2 : cs.map some ≠ [] → callError k cf ((cs.map some).headD none) = .ok s := by
      intro h1
      rw [headD_map_some]
      exact hs (hne2 h1)
    have := chain_cause k _ h0.length (some c) (cs.map some) cf m s hc hm hs2
    simpa only [List.length_map, hcs] using this
  · intro lf cf hnil
    rw [hrev]
    simp only [List.head?_cons, List.tail_cons]
    rcases chain_cause_nil_origin k _ h0.length (some c) (cs.map some) lf cf hc hnil with
      h1 | ⟨h1, h2⟩
    · exact Or.inl h1
    · rw [headD_map_some] at h2
      exact Or.inr ⟨hne2 h1, h2⟩

/-- The chain built from causes of other types, whose `Error()` returns their
message: `Error()` and `Cause()` in closed form. -/
theorem built_chain_foreign (h0 : Heap) (m1 : String) (ms : List String) :
    ∃ k, build h0 (some (.foreign m1)) (ms.map (fun s => some (GoError.foreign s)))
        = .ok (k, some h0.length) ∧
      depth k k.length (some h0.length) = .ok (ms.length + 1) ∧
      (∃ cs : List GoError, cs.length = ms.length + 1 ∧
        causes k k.length (some h0.length) = .ok (cs.map some)) ∧
      (∀ e, ∃ k2, Add k (some h0.length) e = .ok k2) ∧
      Error k (some h0.length) = .ok ((m1 :: ms).reverse.headD "") ∧
      (∀ lf cf, CauseFuel lf cf k (some h0.length) =
        if ms.length ≤ lf then
          .ok (String.join (sprintfQuoted ((m1 :: ms).reverse.headD "") ::
            List.replicate ms.length (sprintfCausedBy ((m1 :: ms).reverse.tail.headD ""))))
        else .error .outOfFuel) ∧
      Cause k (some h0.length) = .ok (String.join
        (sprintfQuoted ((m1 :: ms).reverse.headD "") ::
          List.replicate ms.length (sprintfCausedBy ((m1 :: ms).reverse.tail.headD "")))) := by
  obtain ⟨k, hk, hd, hcs, hA, hE, hC, _⟩ := built_chain h0 (.foreign m1) (ms.map .foreign)
  have hmap : (ms.map GoError.foreign).map some = ms.map (fun s => some (GoError.foreign s)) := by
    simp [List.map_map, Function.comp_def]
  rw [hmap] at hk
  simp only [List.length_map] at hd hC hcs
  have hm : ∀ cf, callError k cf (GoError.foreign m1 :: ms.map GoError.foreign).reverse.head?
      = .ok ((m1 :: ms).reverse.headD "") := by
    intro cf
    rw [newest_foreign, callError_foreign]
  have hs : ∀ cf, ms.map GoError.foreign ≠ [] →
      callError k cf (GoError.foreign m1 :: ms.map GoError.foreign).reverse.tail.head?
        = .ok ((m1 :: ms).reverse.tail.headD "") := by
    intro cf hne
    have hms : ms ≠ [] := by
      intro h1
      apply hne
      rw [h1]
      rfl
    rw [second_foreign m1 ms hms, callError_foreign]
  refine ⟨k, hk, hd, hcs, hA, ?_, ?_, ?_⟩
  · unfold Error
    rw [hE k.length, hm k.length]
  · intro lf cf
    exact (hC cf _ _ (hm cf) (hs cf)).1 lf
  · exact (hC 0 _ _ (hm 0) (hs 0)).2

/-- C5 (the claim fails on the code): a typed nil `*ErrorData` is a non-nil
`error`; on the chain `NewError` builds from it (`k = 0`) `Cause()` emits no
segment, it stops at the nil dereference inside the cause's `Error()`. -/
theorem Cause_faults_on_typed_nil_cause :
    build [] (some (GoError.errorData none)) []
        = .ok ([ErrorData.mk none (some (GoError.errorData none))], some 0) ∧
      Cause [ErrorData.mk none (some (GoError.errorData none))] (some 0)
        = .error .nilDereference ∧
      (∀ lf cf, CauseFuel lf cf [ErrorData.mk none (some (GoError.errorData none))] (some 0)
        = .error .nilDereference) ∧
      ¬ ∃ segs : List String, segs.length = 0 + 1 ∧
        Cause [ErrorData.mk none (some (GoError.errorData none))] (some 0)
          = .ok (String.join segs) := by
  refine ⟨rfl, rfl, ?_, ?_⟩
  · intro lf cf
    cases cf <;> rfl
  · rintro ⟨segs, _, hseg⟩
    cases hseg

/-- C5 (amended): the chain built by `NewError` and `k` further `Add` calls with
non-nil errors (repeated values included) has depth exactly `k + 1`, and wrapping
the same error twice gives depth 2. Whenever the `Error()` calls on the newest
cause and, for `k ≥ 1`, on the second newest cause return `m` and `s`, the loop
of `Cause` stops after exactly `k` iterations (fuel `k` suffices, less fuel does
not) and `Cause()` returns the concatenation of exactly `k + 1` segments: `'m'`
and then `k` times `, caused by 's'`. Causes of other types, whose `Error()`
returns their message, always meet that condition. -/
theorem build_depth_and_segments (h0 : Heap) (e1 : GoError) (es : List GoError)
    (m1 : String) (ms : List String) :
    (∃ k a, build h0 (some e1) (es.map some) = .ok (k, some a) ∧
      depth k k.length (some a) = .ok (es.length + 1) ∧
      ∀ cf m s, callError k cf (e1 :: es).reverse.head? = .ok m →
        (es ≠ [] → callError k cf (e1 :: es).reverse.tail.head? = .ok s) →
        (∀ lf, CauseFuel lf cf k (some a) =
          if es.length ≤ lf then
            .ok (String.join (("'" ++ m ++ "'") ::
              List.replicate es.length (", caused by '" ++ s ++ "'")))
          else .error .outOfFuel) ∧
        Cause k (some a) = .ok (String.join (("'" ++ m ++ "'") ::
          List.replicate es.length (", caused by '" ++ s ++ "'"))) ∧
        (("'" ++ m ++ "'") ::
          List.replicate es.length (", caused by '" ++ s ++ "'")).length = es.length + 1) ∧
    (∃ k a, build h0 (some (.foreign m1)) (ms.map (fun s => some (GoError.foreign s)))
        = .ok (k, some a) ∧
      depth k k.length (some a) = .ok (ms.length + 1) ∧
      (∀ lf cf, CauseFuel lf cf k (some a) =
        if ms.length ≤ lf then
          .ok (String.join (("'" ++ (m1 :: ms).reverse.headD "" ++ "'") ::
            List.replicate ms.length
              (", caused by '" ++ (m1 :: ms).reverse.tail.headD "" ++ "'")))
        else .error .outOfFuel) ∧
      Cause k (some a) = .ok (String.join
        (("'" ++ (m1 :: ms).reverse.headD "" ++ "'") ::
          List.replicate ms.length
            (", caused by '" ++ (m1 :: ms).reverse.tail.headD "" ++ "'")))) ∧
    (∃ k a, build h0 (some e1) [some e1] = .ok (k, some a) ∧
      depth k k.length (some a) = .ok 2) := by
  refine ⟨?_, ?_, ?_⟩
  · obtain ⟨k, hk, hd, _, _, _, hC, _⟩ := built_chain h0 e1 es
    refine ⟨k, h0.length, hk, hd, fun cf m s hm hs => ?_⟩
    obtain ⟨h1, h2⟩ := hC cf m s hm hs
    simp only [sprintfQuoted, sprintfCausedBy] at h1 h2
    exact ⟨h1, h2, by simp⟩
  · obtain ⟨k, hk, hd, _, _, _, hC, hCause⟩ := built_chain_foreign h0 m1 ms
    simp only [sprintfQuoted, sprintfCausedBy] at hC hCause
    exact ⟨k, h0.length, hk, hd, hC, hCause⟩
  · obtain ⟨k, hk, hd, _⟩ := built_chain h0 e1 [e1]
    exact ⟨k, h0.length, hk, hd⟩

theorem build_depth_and_segments_witness :
    build [] (some (GoError.foreign "a")) [some (GoError.foreign "b")]
        = .ok ([ErrorData.mk (some 1) (some (GoError.foreign "b")),
            ErrorData.mk none (some (GoError.foreign "a"))], some 0) ∧
      depth [ErrorData.mk (some 1) (some (GoError.foreign "b")),
            ErrorData.mk none (some (GoError.foreign "a"))] 2 (some 0) = .ok 2 ∧
      (∀ lf, CauseFuel lf 0 [ErrorData.mk (some 1) (some (GoError.foreign "b")),
            ErrorData.mk none (some (GoError.foreign "a"))] (some 0) =
        if 1 ≤ lf then .ok "'b', caused by 'a'" else .error .outOfFuel) ∧
      Cause [ErrorData.mk (some 1) (some (GoError.foreign "b")),
            ErrorData.mk none (some (GoError.foreign "a"))] (some 0)
        = .ok "'b', caused by 'a'" := by
  obtain ⟨⟨k, a, hk, hd, hC⟩, _, _⟩ :=
    build_depth_and_segments [] (GoError.foreign "a") [GoError.foreign "b"] "a" ["b"]
  have hb : build [] (some (GoError.foreign "a")) [some (GoError.foreign "b")]
      = .ok ([ErrorData.mk (some 1) (some (GoError.foreign "b")),
          ErrorData.mk none (some (GoError.foreign "a"))], some 0) := rfl
  have hk2 : build [] (some (GoError.foreign "a")) [some (GoError.foreign "b")]
      = .ok (k, some a) := hk
  rw [hb] at hk2
  cases hk2
  obtain ⟨h1, _, _⟩ := hC 0 "b" "a" (callError_foreign _ 0 "b")
    (fun _ => callError_foreign _ 0 "a")
  exact ⟨rfl, hd, h1, rfl⟩

/-- C6 (the claim fails on the code): `Error()` and `Cause()` fail on chains
built from non-nil causes that are themselves `*ErrorData`. With a typed nil
pointer as cause both stop at a nil dereference; after `e.Add(e)` both recurse
through `e.error` and never return, whatever the fuel. -/
theorem Error_fails_on_ErrorData_cause :
    build [] (some (GoError.errorData none)) []
        = .ok ([ErrorData.mk none (some (GoError.errorData none))], some 0) ∧
      Error [ErrorData.mk none (some (GoError.errorData none))] (some 0)
        = .error .nilDereference ∧
      Cause [ErrorData.mk none (some (GoError.errorData none))] (some 0)
        = .error .nilDereference ∧
      build [] (some (GoError.foreign "x")) [some (GoError.errorData (some 0))]
        = .ok ([ErrorData.mk (some 1) (some (GoError.errorData (some 0))),
            ErrorData.mk none (some (GoError.foreign "x"))], some 0) ∧
      (∀ cf, ErrorFuel cf [ErrorData.mk (some 1) (some (GoError.errorData (some 0))),
            ErrorData.mk none (some (GoError.foreign "x"))] (some 0) = .error .outOfFuel) ∧
      (∀ lf cf, CauseFuel lf cf [ErrorData.mk (some 1) (some (GoError.errorData (some 0))),
            ErrorData.mk none (some (GoError.foreign "x"))] (some 0) = .error .outOfFuel) := by
  have hself := callError_self
    [ErrorData.mk (some 1) (some (GoError.errorData (some 0))),
      ErrorData.mk none (some (GoError.foreign "x"))] 0
    (ErrorData.mk (some 1) (some (GoError.errorData (some 0)))) rfl rfl
  refine ⟨rfl, rfl, rfl, rfl, ?_, ?_⟩
  · intro cf
    exact hself cf
  · intro lf cf
    have h1 : CauseFuel lf cf [ErrorData.mk (some 1) (some (GoError.errorData (some 0))),
        ErrorData.mk none (some (GoError.foreign "x"))] (some 0)
        = (callError [ErrorData.mk (some 1) (some (GoError.errorData (some 0))),
            ErrorData.mk none (some (GoError.foreign "x"))] cf
            (some (GoError.errorData (some 0))) >>= fun m =>
          Cause.loop [ErrorData.mk (some 1) (some (GoError.errorData (some 0))),
            ErrorData.mk none (some (GoError.foreign "x"))] (some 0) cf lf (some 1)
            (sprintfQuoted m)) := rfl
    rw [h1, hself cf]
    rfl

/-- C6 (amended): on every chain built by `NewError` from a non-nil cause and
any number of `Add` calls with non-nil causes, the building succeeds, the chain
is finite with a non-nil current in every node, and one more `Add` returns.
`Error()` is the `Error()` call on the newest cause; when that call and, on a
chain of two or more nodes, the one on the second newest cause return, `Error()`
and `Cause()` return, and a nil dereference reported by `Cause()` always comes
out of one of those two calls, never from a nil node. Causes of other types,
whose `Error()` returns their message, make `Error()` and `Cause()` return. -/
theorem built_chain_never_faults (h0 : Heap) (e1 : GoError) (es : List GoError)
    (e : GoError) (m1 : String) (ms : List String) :
    (∃ k a, build h0 (some e1) (es.map some) = .ok (k, some a) ∧
      (∃ cs : List GoError, cs.length = es.length + 1 ∧
        causes k k.length (some a) = .ok (cs.map some)) ∧
      (∃ k2, Add k (some a) (some e) = .ok k2) ∧
      (∀ cf, ErrorFuel cf k (some a) = callError k cf (e1 :: es).reverse.head?) ∧
      (∀ cf m s, callError k cf (e1 :: es).reverse.head? = .ok m →
        (es ≠ [] → callError k cf (e1 :: es).reverse.tail.head? = .ok s) →
        Error k (some a) = .ok m ∧ (∃ str, Cause k (some a) = .ok str) ∧
        ∀ lf, CauseFuel lf cf k (some a) ≠ .error .nilDereference) ∧
      (∀ lf cf, CauseFuel lf cf k (some a) = .error .nilDereference →
        callError k cf (e1 :: es).reverse.head? = .error .nilDereference ∨
          (es ≠ [] ∧
            callError k cf (e1 :: es).reverse.tail.head? = .error .nilDereference))) ∧
    (∃ k a, build h0 (some (.foreign m1)) (ms.map (fun s => some (GoError.foreign s)))
        = .ok (k, some a) ∧
      (∃ cs : List GoError, cs.length = ms.length + 1 ∧
        causes k k.length (some a) = .ok (cs.map some)) ∧
      (∃ k2, Add k (some a) (some e) = .ok k2) ∧
      (∃ str, Error k (some a) = .ok str) ∧
      (∃ str, Cause k (some a) = .ok str) ∧
      (∀ cf, ErrorFuel cf k (some a) ≠ .error .nilDereference) ∧
      ∀ lf cf, CauseFuel lf cf k (some a) ≠ .error .nilDereference) := by
  constructor
  · obtain ⟨k, hk, _, hcs, hA, hE, hC, hN⟩ := built_chain h0 e1 es
    refine ⟨k, h0.length, hk, hcs, hA (some e), hE, fun cf m s hm hs => ?_, hN⟩
    obtain ⟨h1, h2⟩ := hC cf m s hm hs
    refine ⟨?_, ⟨_, h2⟩, fun lf => ?_⟩
    · unfold Error
      rw [hE k.length]
      exact callError_adequate_ok k cf _ m hm
    · rw [h1 lf]
      split <;> simp
  · obtain ⟨k, hk, _, hcs, hA, hE, hC, hCause⟩ := built_chain_foreign h0 m1 ms
    refine ⟨k, h0.length, hk, hcs, hA (some e), ⟨_, hE⟩, ⟨_, hCause⟩, fun cf => ?_,
      fun lf cf => ?_⟩
    · have hEk : ErrorFuel cf k (some h0.length)
          = callError k cf (GoError.foreign m1 :: ms.map GoError.foreign).reverse.head? := by
        obtain ⟨k3, hk3, _, _, _, hE3, _, _⟩ :=
          built_chain h0 (.foreign m1) (ms.map .foreign)
        have hmap : (ms.map GoError.foreign).map some
            = ms.map (fun s => some (GoError.foreign s)) := by
          simp [List.map_map, Function.comp_def]
        rw [hmap, hk] at hk3
        cases hk3
        exact hE3 cf
      rw [hEk, newest_foreign, callError_foreign]
      intro hc
      cases hc
    · rw [hC lf cf]
      split <;> simp

theorem built_chain_never_faults_witness :
    ∃ k a, build [] (some (GoError.foreign "a")) [some (GoError.foreign "b")]
        = .ok (k, some a) ∧
      Error k (some a) = .ok "b" ∧ (∃ str, Cause k (some a) = .ok str) ∧
      ∀ lf, CauseFuel lf 0 k (some a) ≠ .error .nilDereference := by
  obtain ⟨⟨k, a, hk, _, _, _, hC, _⟩, _⟩ :=
    built_chain_never_faults [] (GoError.foreign "a") [GoError.foreign "b"]
      (GoError.foreign "e") "a" ["b"]
  exact ⟨k, a, hk, hC 0 "b" "a" (callError_foreign k 0 "b")
    (fun _ => callError_foreign k 0 "a")⟩

/-- C9: on every finite chain of `n ≥ 2` nodes whose newest two causes have the
messages `m` and `s` (their `Error()` calls return `m` and `s`), `Cause()`
returns `'m'` followed by exactly `n - 1` copies of `, caused by 's'`: the loop
runs exactly `n - 1` times and reads the second node each time, so what the
older nodes hold is never read. -/
theorem Cause_repeats_second (h : Heap) (f : Nat) (a : Addr) (c c2 : Option GoError)
    (cs : List (Option GoError)) (cf : Nat) (m s : String)
    (hc : causes h f (some a) = .ok (c :: c2 :: cs))
    (hm : callError h cf c = .ok m) (hs : callError h cf c2 = .ok s) :
    (∀ lf, CauseFuel lf cf h (some a) =
      if cs.length + 1 ≤ lf then
        .ok ("'" ++ m ++ "'" ++
          String.join (List.replicate (cs.length + 1) (", caused by '" ++ s ++ "'")))
      else .error .outOfFuel) ∧
    Cause h (some a) =
      .ok ("'" ++ m ++ "'" ++
        String.join (List.replicate (cs.length + 1) (", caused by '" ++ s ++ "'"))) := by
  have := chain_cause h f a c (c2 :: cs) cf m s hc hm (fun _ => hs)
  simpa only [join_cons, List.length_cons, sprintfQuoted, sprintfCausedBy] using this

theorem Cause_repeats_second_witness :
    causes [ErrorData.mk (some 2) (some (GoError.foreign "c")),
          ErrorData.mk none (some (GoError.foreign "a")),
          ErrorData.mk (some 1) (some (GoError.foreign "b"))] 3 (some 0)
        = .ok [some (GoError.foreign "c"), some (GoError.foreign "b"),
            some (GoError.foreign "a")] ∧
      callError [ErrorData.mk (some 2) (some (GoError.foreign "c")),
          ErrorData.mk none (some (GoError.foreign "a")),
          ErrorData.mk (some 1) (some (GoError.foreign "b"))] 0 (some (GoError.foreign "c"))
        = .ok "c" ∧
      callError [ErrorData.mk (some 2) (some (GoError.foreign "c")),
          ErrorData.mk none (some (GoError.foreign "a")),
          ErrorData.mk (some 1) (some (GoError.foreign "b"))] 0 (some (GoError.foreign "b"))
        = .ok "b" ∧
      ((∀ lf, CauseFuel lf 0 [ErrorData.mk (some 2) (some (GoError.foreign "c")),
          ErrorData.mk none (some (GoError.foreign "a")),
          ErrorData.mk (some 1) (some (GoError.foreign "b"))] (some 0)
        = if 1 + 1 ≤ lf then .ok "'c', caused by 'b', caused by 'b'"
          else .error .outOfFuel) ∧
      Cause [ErrorData.mk (some 2) (some (GoError.foreign "c")),
          ErrorData.mk none (some (GoError.foreign "a")),
          ErrorData.mk (some 1) (some (GoError.foreign "b"))] (some 0)
        = .ok "'c', caused by 'b', caused by 'b'") :=
  ⟨rfl, rfl, rfl,
    (Cause_repeats_second
      [ErrorData.mk (some 2) (some (GoError.foreign "c")),
        ErrorData.mk none (some (GoError.foreign "a")),
        ErrorData.mk (some 1) (some (GoError.foreign "b"))]
      3 0 (some (GoError.foreign "c")) (some (GoError.foreign "b"))
      [some (GoError.foreign "a")] 0 "c" "b" rfl rfl rfl).1, rfl⟩

/-- C10: on every finite chain of at most two nodes `Cause()` and the specified
newest-to-oldest traversal return the same result, for every fuel and at the
bound of the heap, whatever the nodes hold; in particular, for causes with the
messages `m1` and `m2`, `NewError(e1).Cause()` is `'m1'`, and after one `Add(e2)`
it is `'m2', caused by 'm1'`. -/
theorem Cause_agrees_up_to_depth_two (h : Heap) (f : Nat) (a : Addr)
    (cs : List (Option GoError)) (h0 : Heap) (m1 m2 : String)
    (hc : causes h f (some a) = .ok cs) (hlen : cs.length ≤ 2) :
    (∀ lf cf, CauseFuel lf cf h (some a) = TraceFuel lf cf h (some a)) ∧
      Cause h (some a) = Trace h (some a) ∧
      (build h0 (some (.foreign m1)) [] >>= fun r => Cause r.1 r.2)
        = .ok ("'" ++ m1 ++ "'") ∧
      (build h0 (some (.foreign m1)) [some (.foreign m2)] >>= fun r => Cause r.1 r.2)
        = .ok ("'" ++ m2 ++ "'" ++ (", caused by '" ++ m1 ++ "'")) ∧
      (build h0 (some (.foreign m1)) [] >>= fun r => Trace r.1 r.2)
        = .ok ("'" ++ m1 ++ "'") ∧
      (build h0 (some (.foreign m1)) [some (.foreign m2)] >>= fun r => Trace r.1 r.2)
        = .ok ("'" ++ m2 ++ "'" ++ (", caused by '" ++ m1 ++ "'")) := by
  have hagree := CauseFuel_eq_TraceFuel h f a cs hc hlen
  obtain ⟨k1, hk1, _, _, _, _, _, hC1⟩ := built_chain_foreign h0 m1 []
  obtain ⟨k2, hk2, _, _, _, _, _, hC2⟩ := built_chain_foreign h0 m1 [m2]
  have hk1x : build h0 (some (.foreign m1)) [] = .ok (k1, some h0.length) := hk1
  have hk2x : build h0 (some (.foreign m1)) [some (.foreign m2)] = .ok (k2, some h0.length) :=
    hk2
  have hb1 := build_causes h0 (some (.foreign m1)) []
  have hb2 := build_causes h0 (some (.foreign m1)) [some (.foreign m2)]
  obtain ⟨k1b, hk1b, hl1, hc1⟩ := hb1
  obtain ⟨k2b, hk2b, hl2, hc2⟩ := hb2
  rw [hk1x] at hk1b
  rw [hk2x] at hk2b
  cases hk1b
  cases hk2b
  have hT1 := TraceFuel_eq k1 _ h0.length m1 [] hc1 k1.length k1.length
  have hT2 := TraceFuel_eq k2 _ h0.length m2 [m1] hc2 k2.length k2.length
  simp only [List.length_nil, Nat.zero_le, if_true] at hT1
  simp only [List.length_cons, List.length_nil] at hl2
  rw [if_pos (by simp only [List.length_cons, List.length_nil]; omega)] at hT2
  refine ⟨hagree, hagree h.length h.length, ?_, ?_, ?_, ?_⟩
  · simp only [hk1x, bind, Except.bind, hC1]
    simp [join_cons, join_nil, sprintfQuoted]
  · simp only [hk2x, bind, Except.bind, hC2]
    simp [join_cons, join_nil, sprintfQuoted, sprintfCausedBy]
  · simp only [hk1x, bind, Except.bind, Trace, hT1]
    simp [renderedTrace, traceSegments, join_cons, join_nil, sprintfQuoted]
  · simp only [hk2x, bind, Except.bind, Trace, hT2]
    simp [renderedTrace, traceSegments, join_cons, join_nil, sprintfQuoted, sprintfCausedBy]

theorem Cause_agrees_up_to_depth_two_witness :
    causes [ErrorData.mk (some 1) (some (GoError.foreign "b")),
          ErrorData.mk none (some (GoError.foreign "a"))] 2 (some 0)
        = .ok [some (GoError.foreign "b"), some (GoError.foreign "a")] ∧
      [some (GoError.foreign "b"), some (GoError.foreign "a")].length ≤ 2 ∧
      ((∀ lf cf, CauseFuel lf cf [ErrorData.mk (some 1) (some (GoError.foreign "b")),
            ErrorData.mk none (some (GoError.foreign "a"))] (some 0)
          = TraceFuel lf cf [ErrorData.mk (some 1) (some (GoError.foreign "b")),
            ErrorData.mk none (some (GoError.foreign "a"))] (some 0)) ∧
        Cause [ErrorData.mk (some 1) (some (GoError.foreign "b")),
            ErrorData.mk none (some (GoError.foreign "a"))] (some 0)
          = Trace [ErrorData.mk (some 1) (some (GoError.foreign "b")),
            ErrorData.mk none (some (GoError.foreign "a"))] (some 0) ∧
        (build [] (some (GoError.foreign "a")) [] >>= fun r => Cause r.1 r.2)
          = .ok ("'" ++ "a" ++ "'") ∧
        (build [] (some (GoError.foreign "a")) [some (GoError.foreign "b")]
            >>= fun r => Cause r.1 r.2)
          = .ok ("'" ++ "b" ++ "'" ++ (", caused by '" ++ "a" ++ "'")) ∧
        (build [] (some (GoError.foreign "a")) [] >>= fun r => Trace r.1 r.2)
          = .ok ("'" ++ "a" ++ "'") ∧
        (build [] (some (GoError.foreign "a")) [some (GoError.foreign "b")]
            >>= fun r => Trace r.1 r.2)
          = .ok ("'" ++ "b" ++ "'" ++ (", caused by '" ++ "a" ++ "'"))) :=
  ⟨rfl, by decide,
    Cause_agrees_up_to_depth_two _ 2 0 _ [] "a" "b" rfl (by decide)⟩

end goerror

/-! ## The claims on the folder operations -/

namespace dropbox

open goerror

theorem errorsNew_ptr (h : Heap) (err : Option GoError) :
    (errorsNew h err).2 = some h.length := rfl

/-- The answer of `List` over a transport triple: one of the two results, and
the typed one exactly on status 200 with a body that deserialises. -/
theorem List_outcome_spec (f : Folder) (h : Heap) (t : Int × Option Bytes × Option GoError) :
    ((∃ v, (Folder.List.outcome f h t).2.1 = some v ∧ (Folder.List.outcome f h t).2.2 = none) ∨
      ((Folder.List.outcome f h t).2.1 = none ∧
        ∃ a, (Folder.List.outcome f h t).2.2 = some a)) ∧
    ∀ v, (Folder.List.outcome f h t).2.1 = some v ↔
      ∃ bytes, t = (StatusOK, some bytes, none) ∧ f.json.UnmarshalList bytes = .ok v := by
  obtain ⟨status, response, err⟩ := t
  cases err with
  | some e => simp [Folder.List.outcome, errorsNew_ptr]
  | none =>
    by_cases hs : status = StatusOK
    · cases response with
      | none => simp [Folder.List.outcome, errorsNew_ptr, hs]
      | some bytes =>
        cases hu : f.json.UnmarshalList bytes with
        | error e2 => simp [Folder.List.outcome, errorsNew_ptr, hs, hu]
        | ok v => simp [Folder.List.outcome, hs, hu]
    · simp [Folder.List.outcome, errorsNew_ptr, hs]

/-- The answer of `Create` over a transport triple: one of the two results, and
the typed one exactly on status 200 with a body that deserialises. -/
theorem Create_outcome_spec (f : Folder) (h : Heap) (t : Int × Option Bytes × Option GoError) :
    ((∃ v, (Folder.Create.outcome f h t).2.1 = some v ∧
        (Folder.Create.outcome f h t).2.2 = none) ∨
      ((Folder.Create.outcome f h t).2.1 = none ∧
        ∃ a, (Folder.Create.outcome f h t).2.2 = some a)) ∧
    ∀ v, (Folder.Create.outcome f h t).2.1 = some v ↔
      ∃ bytes, t = (StatusOK, some bytes, none) ∧ f.json.UnmarshalCreate bytes = .ok v := by
  obtain ⟨status, response, err⟩ := t
  cases err with
  | some e => simp [Folder.Create.outcome, errorsNew_ptr]
  | none =>
    by_cases hs : status = StatusOK
    · cases response with
      | none => simp [Folder.Create.outcome, errorsNew_ptr, hs]
      | some bytes =>
        cases hu : f.json.UnmarshalCreate bytes with
        | error e2 => simp [Folder.Create.outcome, errorsNew_ptr, hs, hu]
        | ok v => simp [Folder.Create.outcome, hs, hu]
    · simp [Folder.Create.outcome, errorsNew_ptr, hs]

/-- C7: for every path and every behaviour of the collaborators, `Folder.List`
and `Folder.Create` return exactly one of a typed response and an `ErrorData`:
a response with a nil error, or a nil response with a non-nil error. The typed
response `v` is returned exactly when the request was serialised, the transport
answered with a nil error, status 200 and a non-nil body, and that body
deserialises to `v`. -/
theorem Folder_returns_exactly_one (f : Folder) (h : Heap) (path : String) :
    (((∃ v, (Folder.List f h path).2.1 = some v ∧ (Folder.List f h path).2.2 = none) ∨
        ((Folder.List f h path).2.1 = none ∧ ∃ a, (Folder.List f h path).2.2 = some a)) ∧
      ∀ v, (Folder.List f h path).2.1 = some v ↔
        ∃ body bytes,
          f.json.MarshalList
            (listFolderRequest.mk (if path = "/" then "" else path) false false false false true)
              = .ok body ∧
          f.client.Request "POST" f.config.Hosts.Api "/files/list_folder" (requestHeaders f) body
            = (200, some bytes, none) ∧
          f.json.UnmarshalList bytes = .ok v) ∧
    (((∃ v, (Folder.Create f h path).2.1 = some v ∧ (Folder.Create f h path).2.2 = none) ∨
        ((Folder.Create f h path).2.1 = none ∧ ∃ a, (Folder.Create f h path).2.2 = some a)) ∧
      ∀ v, (Folder.Create f h path).2.1 = some v ↔
        ∃ body bytes,
          f.json.MarshalCreate (createFolderRequest.mk (if path = "/" then "" else path) false)
              = .ok body ∧
          f.client.Request "POST" f.config.Hosts.Api "/files/create_folder_v2"
              (requestHeaders f) body
            = (200, some bytes, none) ∧
          f.json.UnmarshalCreate bytes = .ok v) := by
  constructor
  · cases hm : f.json.MarshalList
        (listFolderRequest.mk (if path = "/" then "" else path) false false false false true) with
    | error e => simp [Folder.List, hm, errorsNew_ptr]
    | ok body =>
      have hs := List_outcome_spec f h
        (f.client.Request "POST" f.config.Hosts.Api "/files/list_folder" (requestHeaders f) body)
      have hL : Folder.List f h path = Folder.List.outcome f h
          (f.client.Request "POST" f.config.Hosts.Api "/files/list_folder"
            (requestHeaders f) body) := by
        simp only [Folder.List, hm]
      rw [hL]
      refine ⟨hs.1, fun v => ?_⟩
      rw [hs.2 v]
      simp [StatusOK]
  · cases hm : f.json.MarshalCreate
        (createFolderRequest.mk (if path = "/" then "" else path) false) with
    | error e => simp [Folder.Create, hm, errorsNew_ptr]
    | ok body =>
      have hs := Create_outcome_spec f h
        (f.client.Request "POST" f.config.Hosts.Api "/files/create_folder_v2"
          (requestHeaders f) body)
      have hL : Folder.Create f h path = Folder.Create.outcome f h
          (f.client.Request "POST" f.config.Hosts.Api "/files/create_folder_v2"
            (requestHeaders f) body) := by
        simp only [Folder.Create, hm]
      rw [hL]
      refine ⟨hs.1, fun v => ?_⟩
      rw [hs.2 v]
      simp [StatusOK]

/-- C8: the request that `Folder.List` and `Folder.Create` serialise carries the
empty string as its path when the input path is `/` and the input path itself
otherwise: whenever that request serialises to `body`, the operation is the
transport call on exactly `body`, classified. -/
theorem Folder_path_normalized (f : Folder) (h : Heap) (path : String) (bodyL bodyC : Bytes)
    (hl : f.json.MarshalList
      (listFolderRequest.mk (if path = "/" then "" else path) false false false false true)
        = .ok bodyL)
    (hc : f.json.MarshalCreate (createFolderRequest.mk (if path = "/" then "" else path) false)
        = .ok bodyC) :
    Folder.List f h path = Folder.List.outcome f h
        (f.client.Request "POST" f.config.Hosts.Api "/files/list_folder"
          (requestHeaders f) bodyL) ∧
      Folder.Create f h path = Folder.Create.outcome f h
        (f.client.Request "POST" f.config.Hosts.Api "/files/create_folder_v2"
          (requestHeaders f) bodyC) := by
  constructor
  · simp only [Folder.List, hl]
  · simp only [Folder.Create, hc]

theorem Folder_path_normalized_witness :
    (sampleFolder (200, some [], none)).json.MarshalList
        (listFolderRequest.mk (if "/" = "/" then "" else "/") false false false false true)
        = .ok [] ∧
      (sampleFolder (200, some [], none)).json.MarshalCreate
        (createFolderRequest.mk (if "/" = "/" then "" else "/") false) = .ok [] ∧
      (Folder.List (sampleFolder (200, some [], none)) [] "/"
          = Folder.List.outcome (sampleFolder (200, some [], none)) []
            ((sampleFolder (200, some [], none)).client.Request "POST"
              (sampleFolder (200, some [], none)).config.Hosts.Api "/files/list_folder"
              (requestHeaders (sampleFolder (200, some [], none))) []) ∧
        Folder.Create (sampleFolder (200, some [], none)) [] "/"
          = Folder.Create.outcome (sampleFolder (200, some [], none)) []
            ((sampleFolder (200, some [], none)).client.Request "POST"
              (sampleFolder (200, some [], none)).config.Hosts.Api "/files/create_folder_v2"
              (requestHeaders (sampleFolder (200, some [], none))) [])) :=
  ⟨rfl, rfl, Folder_path_normalized (sampleFolder (200, some [], none)) [] "/" [] [] rfl rfl⟩

end dropbox
